import Mathlib

/-!
Verification of the ROFLSwap confidential order-matching oracle
(order retrieval, buy/sell crossing, settlement, scheduling).

The Python sources are shallowly embedded as pure Lean functions:

* dict-shaped orders become the `Order` structure (the oracle-matching
  variant, whose dicts use the key `amount` instead of `size` and
  `isBuyOrder` instead of `isBuy`, gets its own `OMOrder` structure);
* Python ints become `Int` (sizes and prices are arbitrary-precision
  signed integers in the source; comparisons like `size <= 0` are kept
  verbatim);
* `list.sort(key=..., reverse=True)` becomes a stable `List.mergeSort`
  with the corresponding comparator (Python sorts are stable);
* network calls, ABI decoding and key material become explicit
  environment records whose fields return `Except Unit`-values: an
  `.error` result models a raised exception at that call site, and the
  embedded control flow reproduces exactly which call sites are wrapped
  in `try/except` in the source;
* in-place mutation of order dicts (size decrements during matching) is
  modelled by threading updated copies of the order lists through the
  loops, which is observationally equivalent for the returned matches.

Source files embedded below:
  rofl_app/matching_engine.py            (namespace `ME`)
  rofl_app/matching_engine_v5.py         (namespace `V5`)
  rofl_app/roflswap_oracle_matching.py   (namespace `OM`)
  roflswapapp/roflswap_matcher.py        (namespace `RA`)
  rofl_app/roflswap_oracle.py            (namespace `OracleV5`)
  rofl_app/settlement.py                 (namespace `Settle`)
  rofl_app/roflswap_oracle.py + main.py  (namespace `Sched`)
-/

namespace RoflSwap

/-- Python `str.lower()` restricted to the ASCII addresses the code
compares; mapped over the underlying character list so that it reduces
in the kernel. -/
def lowerStr (s : String) : String := ⟨s.data.map Char.toLower⟩

/-- The zero address used as a default owner/token in the sources. -/
def zeroAddr : String := "0x0000000000000000000000000000000000000000"

/-- An order dict as produced by the decoders in `matching_engine.py`,
`matching_engine_v5.py`, `roflswap_oracle.py` and
`roflswapapp/roflswap_matcher.py`: keys `orderId`, `owner`, `token`,
`price`, `size`, `isBuy`. -/
structure Order where
  orderId : Nat
  owner : String
  token : String
  price : Int
  size : Int
  isBuy : Bool
deriving Repr, DecidableEq

/-- A match dict as built by `MatchingEngine.find_matches`
(`matching_engine.py` lines 194-203). -/
structure MEMatch where
  buyOrderId : Nat
  sellOrderId : Nat
  buyerAddress : String
  sellerAddress : String
  amount : Int
  price : Int
  buyToken : String
  sellToken : String
deriving Repr, DecidableEq

/-- Sum of the `amount` fields of a list of matches. -/
def sumAmounts (ms : List MEMatch) : Int := (ms.map MEMatch.amount).sum

/-- Total quantity the matches `ms` take from order id `oid` on the buy
side. -/
def fillB (oid : Nat) (ms : List MEMatch) : Int :=
  sumAmounts (ms.filter (fun m => m.buyOrderId == oid))

/-- Total quantity the matches `ms` take from order id `oid` on the sell
side. -/
def fillS (oid : Nat) (ms : List MEMatch) : Int :=
  sumAmounts (ms.filter (fun m => m.sellOrderId == oid))

namespace ME

/-- Inner loop of `MatchingEngine.find_matches` (`matching_engine.py`
lines 171-217): one buy order scans the sell book left to right.  The
source mutates the shared order dicts in place; here the updated sell
book, the updated buy order and the emitted matches are returned.
Guards appear in source order: zero-size sell skip, token mismatch skip,
case-insensitive self-trade skip, price crossing, positive amount; a
fully filled buy breaks out of the scan. -/
def scanSells (buy : Order) : List Order → List Order × Order × List MEMatch
  | [] => ([], buy, [])
  | s :: rest =>
    if s.size ≤ 0 then
      let r := scanSells buy rest
      (s :: r.1, r.2.1, r.2.2)
    else if buy.token ≠ s.token then
      let r := scanSells buy rest
      (s :: r.1, r.2.1, r.2.2)
    else if lowerStr buy.owner = lowerStr s.owner then
      let r := scanSells buy rest
      (s :: r.1, r.2.1, r.2.2)
    else if s.price ≤ buy.price then
      let amt := min buy.size s.size
      if 0 < amt then
        let m : MEMatch :=
          ⟨buy.orderId, s.orderId, buy.owner, s.owner, amt, s.price, buy.token, s.token⟩
        let buy2 : Order := { buy with size := buy.size - amt }
        let s2 : Order := { s with size := s.size - amt }
        if buy2.size = 0 then
          (s2 :: rest, buy2, [m])
        else
          let r := scanSells buy2 rest
          (s2 :: r.1, r.2.1, m :: r.2.2)
      else
        let r := scanSells buy rest
        (s :: r.1, r.2.1, r.2.2)
    else
      let r := scanSells buy rest
      (s :: r.1, r.2.1, r.2.2)

/-- Outer loop of `MatchingEngine.find_matches` (lines 166-217): each
buy order with positive remaining size scans the (shared, mutated) sell
book. -/
def scanBuys : List Order → List Order → List Order × List MEMatch
  | [], sells => (sells, [])
  | b :: bs, sells =>
    if b.size ≤ 0 then scanBuys bs sells
    else
      let r := scanSells b sells
      let r2 := scanBuys bs r.1
      (r2.1, r.2.2 ++ r2.2)

/-- `self.buy_orders.sort(key=lambda x: x["price"], reverse=True)`:
stable sort, price descending. -/
def sortBuys (l : List Order) : List Order :=
  l.mergeSort (fun a b => decide (b.price ≤ a.price))

/-- `self.sell_orders.sort(key=lambda x: x["price"])`: stable sort,
price ascending. -/
def sortSells (l : List Order) : List Order :=
  l.mergeSort (fun a b => decide (a.price ≤ b.price))

/-- `MatchingEngine.find_matches` (`matching_engine.py` lines 150-225):
empty-book early return, sort both books, then the nested scan. -/
def findMatches (buys sells : List Order) : List MEMatch :=
  if buys.isEmpty || sells.isEmpty then []
  else (scanBuys (sortBuys buys) (sortSells sells)).2

end ME

namespace V5

/-- A match dict as built by `MatchingEngineV5.find_matches`
(`matching_engine_v5.py` lines 269-277). -/
structure V5Match where
  buyOrderId : Nat
  sellOrderId : Nat
  token : String
  price : Int
  size : Int
  buyOwner : String
  sellOwner : String
deriving Repr, DecidableEq

/-- Inner loop of `MatchingEngineV5.find_matches` (`matching_engine_v5.py`
lines 258-287).  Guard order differs from `matching_engine.py`:
zero-size skip, then price crossing, then token equality, then the
case-insensitive self-trade check; the break condition is
`buy_order["size"] <= 0`. -/
def scanSells (buy : Order) : List Order → List Order × Order × List V5Match
  | [] => ([], buy, [])
  | s :: rest =>
    if s.size ≤ 0 then
      let r := scanSells buy rest
      (s :: r.1, r.2.1, r.2.2)
    else if s.price ≤ buy.price then
      if buy.token = s.token then
        if lowerStr buy.owner ≠ lowerStr s.owner then
          let amt := min buy.size s.size
          let m : V5Match :=
            ⟨buy.orderId, s.orderId, buy.token, s.price, amt, buy.owner, s.owner⟩
          let buy2 : Order := { buy with size := buy.size - amt }
          let s2 : Order := { s with size := s.size - amt }
          if buy2.size ≤ 0 then
            (s2 :: rest, buy2, [m])
          else
            let r := scanSells buy2 rest
            (s2 :: r.1, r.2.1, m :: r.2.2)
        else
          let r := scanSells buy rest
          (s :: r.1, r.2.1, r.2.2)
      else
        let r := scanSells buy rest
        (s :: r.1, r.2.1, r.2.2)
    else
      let r := scanSells buy rest
      (s :: r.1, r.2.1, r.2.2)

/-- Outer loop of `MatchingEngineV5.find_matches` (lines 253-287). -/
def scanBuys : List Order → List Order → List Order × List V5Match
  | [], sells => (sells, [])
  | b :: bs, sells =>
    if b.size ≤ 0 then scanBuys bs sells
    else
      let r := scanSells b sells
      let r2 := scanBuys bs r.1
      (r2.1, r.2.2 ++ r2.2)

/-- `MatchingEngineV5.find_matches` (`matching_engine_v5.py` lines
237-289). -/
def findMatches (buys sells : List Order) : List V5Match :=
  if buys.isEmpty || sells.isEmpty then []
  else
    (scanBuys (buys.mergeSort (fun a b => decide (b.price ≤ a.price)))
      (sells.mergeSort (fun a b => decide (a.price ≤ b.price)))).2

end V5

/-- An order dict of `roflswap_oracle_matching.py` (its `_decode_order`,
lines 202-209): keys `orderId`, `owner`, `token`, `amount`, `price`,
`isBuyOrder`. -/
structure OMOrder where
  orderId : Nat
  owner : String
  token : String
  amount : Int
  price : Int
  isBuyOrder : Bool
deriving Repr, DecidableEq

namespace OM

/-- A match tuple `(buy_order, sell_order, quantity)` of
`ROFLSwapMatcher.find_matches` (`roflswap_oracle_matching.py` line 449).
In the source the tuple aliases the mutable order dicts, whose `amount`
fields keep being decremented after the tuple is appended; the embedding
snapshots the orders at emission time.  The theorems below only use the
fields that are never mutated after emission (`orderId`, `owner`,
`token`, `price`) together with the quantity, on which the two views
agree. -/
structure OMMatch where
  buyOrder : OMOrder
  sellOrder : OMOrder
  quantity : Int
deriving Repr, DecidableEq

/-- Sum of the quantities of a list of matches. -/
def sumQ (ms : List OMMatch) : Int := (ms.map OMMatch.quantity).sum

/-- Total quantity the matches `ms` take from order id `oid` on the buy
side. -/
def fillBQ (oid : Nat) (ms : List OMMatch) : Int :=
  sumQ (ms.filter (fun m => m.buyOrder.orderId == oid))

/-- Total quantity the matches `ms` take from order id `oid` on the sell
side. -/
def fillSQ (oid : Nat) (ms : List OMMatch) : Int :=
  sumQ (ms.filter (fun m => m.sellOrder.orderId == oid))

/-- Inner loop of `ROFLSwapMatcher.find_matches`
(`roflswap_oracle_matching.py` lines 431-457).  Guards in source order:
token mismatch skip, price crossing skip, case-sensitive self-trade
skip, then `quantity = min(buy.amount, sell.amount)` emitted only when
positive; both amounts are decremented and a buy whose amount reaches
exactly 0 breaks out. -/
def scanSells (buy : OMOrder) : List OMOrder → List OMOrder × OMOrder × List OMMatch
  | [] => ([], buy, [])
  | s :: rest =>
    if buy.token ≠ s.token then
      let r := scanSells buy rest
      (s :: r.1, r.2.1, r.2.2)
    else if buy.price < s.price then
      let r := scanSells buy rest
      (s :: r.1, r.2.1, r.2.2)
    else if buy.owner = s.owner then
      let r := scanSells buy rest
      (s :: r.1, r.2.1, r.2.2)
    else
      let q := min buy.amount s.amount
      if 0 < q then
        let m : OMMatch := ⟨buy, s, q⟩
        let buy2 : OMOrder := { buy with amount := buy.amount - q }
        let s2 : OMOrder := { s with amount := s.amount - q }
        if buy2.amount = 0 then
          (s2 :: rest, buy2, [m])
        else
          let r := scanSells buy2 rest
          (s2 :: r.1, r.2.1, m :: r.2.2)
      else
        let r := scanSells buy rest
        (s :: r.1, r.2.1, r.2.2)

/-- Outer loop of `ROFLSwapMatcher.find_matches`
(`roflswap_oracle_matching.py` lines 431-457): no per-buy guard at all;
every buy order scans the shared sell book. -/
def scanBuys : List OMOrder → List OMOrder → List OMOrder × List OMMatch
  | [], sells => (sells, [])
  | b :: bs, sells =>
    let r := scanSells b sells
    let r2 := scanBuys bs r.1
    (r2.1, r.2.2 ++ r2.2)

/-- `ROFLSwapMatcher.find_matches` (`roflswap_oracle_matching.py` lines
406-459): partition by `isBuyOrder`, stable-sort buys by price
descending and sells by price ascending, then the nested scan. -/
def findMatches (orders : List OMOrder) : List OMMatch :=
  let buys := orders.filter (fun o => o.isBuyOrder)
  let sells := orders.filter (fun o => !o.isBuyOrder)
  (scanBuys (buys.mergeSort (fun a b => decide (b.price ≤ a.price)))
    (sells.mergeSort (fun a b => decide (a.price ≤ b.price)))).2

/-- Argument tuple of the `executeMatch` call built by
`ROFLSwapMatcher.execute_match` (`roflswap_oracle_matching.py` lines
483-493): buy id, sell id, buyer, seller, token, quantity and the SELL
price. -/
def executeMatchArgs (buy sell : OMOrder) (quantity : Int) :
    Nat × Nat × String × String × String × Int × Int :=
  (buy.orderId, sell.orderId, buy.owner, sell.owner, buy.token, quantity, sell.price)

end OM

namespace RA

/-- A match tuple `(buy_order, sell_order, matched_quantity)` of
`ROFLSwapMatcher.find_matches` in `roflswapapp/roflswap_matcher.py`
(line 201).  This variant never mutates the order dicts, so the
snapshots are exact. -/
structure RAMatch where
  buyOrder : Order
  sellOrder : Order
  quantity : Int
deriving Repr, DecidableEq

/-- Body of the inner loop of `ROFLSwapMatcher.find_matches` in
`roflswapapp/roflswap_matcher.py` (lines 181-201): emit `(b, s, min)`
when tokens match, `buy.price >= sell.price`, and no earlier match
already uses `b` as its buy or `s` as its sell. -/
def innerStep (b : Order) (acc : List RAMatch) (s : Order) : List RAMatch :=
  if b.token ≠ s.token then acc
  else if b.price < s.price then acc
  else
    let q := min b.size s.size
    if acc.any (fun m =>
        m.buyOrder.orderId == b.orderId || m.sellOrder.orderId == s.orderId)
    then acc
    else acc ++ [⟨b, s, q⟩]

/-- `ROFLSwapMatcher.find_matches` from `roflswapapp/roflswap_matcher.py`
(lines 163-204): partition by `isBuy` (no sorting, no self-trade check,
no positive-quantity check, no size bookkeeping), then the nested loop. -/
def findMatches (orders : List Order) : List RAMatch :=
  let buys := orders.filter (fun o => o.isBuy)
  let sells := orders.filter (fun o => !o.isBuy)
  buys.foldl (fun acc b => sells.foldl (innerStep b) acc) []

end RA

namespace OracleV5

/-- A match tuple `(buy, sell, match_quantity)` of
`ROFLSwapOracle.find_matches` (`roflswap_oracle.py` line 300).  This
variant never mutates the order dicts. -/
structure OrMatch where
  buyOrder : Order
  sellOrder : Order
  quantity : Int
deriving Repr, DecidableEq

/-- `ROFLSwapOracle.find_matches` (`roflswap_oracle.py` lines 270-302):
a plain nested product of the buy and sell partitions; a pair is emitted
when tokens match, `buy.price >= sell.price` and
`min(buy.size, sell.size) > 0`.  There is no self-trade check and no
size bookkeeping in this variant. -/
def findMatches (orders : List Order) : List OrMatch :=
  let buys := orders.filter (fun o => o.isBuy)
  let sells := orders.filter (fun o => !o.isBuy)
  buys.flatMap (fun b =>
    sells.filterMap (fun s =>
      if b.token = s.token ∧ s.price ≤ b.price then
        let q := min b.size s.size
        if 0 < q then some ⟨b, s, q⟩ else none
      else none))

/-- Argument tuple of the `executeMatch` transaction built by
`ROFLSwapOracle.execute_match` (`roflswap_oracle.py` lines 323-333):
buy id, sell id, buyer, seller, token, quantity and — in this variant —
the BUY price as the price argument. -/
def executeMatchArgs (buy sell : Order) (quantity : Int) :
    Nat × Nat × String × String × String × Int × Int :=
  (buy.orderId, sell.orderId, buy.owner, sell.owner, buy.token, quantity, buy.price)

end OracleV5

namespace OracleV5

/-- Environment of `ROFLSwapOracle.retrieve_order` (`roflswap_oracle.py`
lines 195-233): the contract view calls and the decode step.  An
`.error` value models the call raising; for `getEncryptedOrder` the
boolean records whether a non-empty payload came back (the byte content
is abstracted: its decoding is the per-id `decodeOrder` field). -/
structure RetrEnv where
  orderExists : Nat → Except Unit Bool
  filledOrders : Nat → Except Unit Bool
  getEncryptedOrder : Nat → Except Unit Bool
  getOrderOwner : Nat → Except Unit (Option String)
  decodeOrder : Nat → Option (Nat × String × String × Int × Int × Bool)

/-- `ROFLSwapOracle.retrieve_order` (`roflswap_oracle.py` lines 195-233):
existence check, filled check, authenticated encrypted-order fetch,
authenticated owner fetch, then `_decode_order`; every failure —
including any raised exception, caught by the outer `try` — yields
`none`.  The decoded dict takes the owner from the decoded tuple
(`decoded[1]`), not from the fetched owner, exactly as `_decode_order`
does. -/
def retrieveOrder (env : RetrEnv) (oid : Nat) : Option Order :=
  match env.orderExists oid with
  | .error _ => none
  | .ok false => none
  | .ok true =>
    match env.filledOrders oid with
    | .error _ => none
    | .ok true => none
    | .ok false =>
      match env.getEncryptedOrder oid with
      | .error _ => none
      | .ok false => none
      | .ok true =>
        match env.getOrderOwner oid with
        | .error _ => none
        | .ok none => none
        | .ok (some _) =>
          match env.decodeOrder oid with
          | none => none
          | some (i, ow, tk, p, sz, ib) => some ⟨i, ow, tk, p, sz, ib⟩

end OracleV5

namespace OM

/-- The WATER token address constant of `roflswap_oracle_matching.py`. -/
def waterTokenAddr : String := "0x991a85943D05Abcc4599Fc8746188CCcE4019F04"

/-- The FIRE token address constant of `roflswap_oracle_matching.py`. -/
def fireTokenAddr : String := "0x8AE7cCe3D249F31b2D2db54aD2eBf1Ba2E30a977"

/-- Result of the `getOrderData` view call in
`ROFLSwapMatcher.retrieve_order`: either a `0x`-prefixed hex string
(whose ABI decode as `(active, tokenA, tokenB, amountA, amountB)` may
succeed or fail) or a value of some other shape. -/
inductive OrderDataResult where
  | hexData (decoded : Option (Bool × String × String × Int × Int))
  | otherFormat
deriving Repr, DecidableEq

/-- The order dict built by `ROFLSwapMatcher.retrieve_order` on the
successful decode path (`roflswap_oracle_matching.py` lines 327-335):
keys `order_id`, `owner`, `active`, `token_a`, `token_b`, `amount_a`,
`amount_b`. -/
structure DecOrderData where
  orderId : Nat
  owner : String
  active : Bool
  tokenA : String
  tokenB : String
  amountA : Int
  amountB : Int
deriving Repr, DecidableEq

/-- What `ROFLSwapMatcher.retrieve_order` can hand back: the decoded
on-chain record, or (only in `local_test` mode) a generated mock order. -/
inductive OMRetrieved where
  | decoded (d : DecOrderData)
  | mock (o : OMOrder)
deriving Repr, DecidableEq

/-- Environment of `ROFLSwapMatcher.retrieve_order`
(`roflswap_oracle_matching.py` lines 262-364).  `filledOrders` is the
contract state; this variant never consults it.  `mockAmount` and
`mockPrice` abstract the id-seeded random generator of
`_generate_mock_order`; `mockOwner` abstracts the deterministic
key-derived owner. -/
structure OMRetrEnv where
  filledOrders : Nat → Bool
  getOrderOwner : Nat → Except Unit (Option String)
  getOrderData : Nat → Except Unit (Option OrderDataResult)
  isLocalMode : Bool
  mockAmount : Nat → Int
  mockPrice : Nat → Int
  mockOwner : Nat → String

/-- `ROFLSwapMatcher._generate_mock_order` (`roflswap_oracle_matching.py`
lines 227-260). -/
def genMockOrder (env : OMRetrEnv) (oid : Nat) (owner : String) : OMOrder :=
  { orderId := oid, owner := owner,
    token := if oid % 2 = 0 then waterTokenAddr else fireTokenAddr,
    amount := env.mockAmount oid, price := env.mockPrice oid,
    isBuyOrder := oid % 2 = 0 }

/-- Data-fetch-and-decode phase of `ROFLSwapMatcher.retrieve_order`
(lines 301-358), entered with the owner already determined: every
failure falls back to a mock order in `local_test` mode and to `none`
otherwise. -/
def retrieveData (env : OMRetrEnv) (oid : Nat) (owner : String) : Option OMRetrieved :=
  match env.getOrderData oid with
  | .error _ =>
      if env.isLocalMode then some (.mock (genMockOrder env oid owner)) else none
  | .ok none =>
      if env.isLocalMode then some (.mock (genMockOrder env oid owner)) else none
  | .ok (some .otherFormat) =>
      if env.isLocalMode then some (.mock (genMockOrder env oid owner)) else none
  | .ok (some (.hexData none)) =>
      if env.isLocalMode then some (.mock (genMockOrder env oid owner)) else none
  | .ok (some (.hexData (some (act, ta, tb, aa, ab)))) =>
      some (.decoded ⟨oid, owner, act, ta, tb, aa, ab⟩)

/-- `ROFLSwapMatcher.retrieve_order` (`roflswap_oracle_matching.py`
lines 262-364).  Note: unlike `ROFLSwapOracle.retrieve_order`, this
variant performs no `orderExists` and no `filledOrders` check; a missing
or zero owner is its only existence proxy, and in `local_test` mode
every failure is replaced by a generated mock order. -/
def retrieveOrder (env : OMRetrEnv) (oid : Nat) : Option OMRetrieved :=
  match env.getOrderOwner oid with
  | .ok none =>
      if env.isLocalMode then some (.mock (genMockOrder env oid zeroAddr)) else none
  | .ok (some ow) =>
      if ow = zeroAddr then
        if env.isLocalMode then some (.mock (genMockOrder env oid ow)) else none
      else
        retrieveData env oid (if env.isLocalMode then env.mockOwner oid else ow)
  | .error _ =>
      if env.isLocalMode then retrieveData env oid (env.mockOwner oid) else none

end OM

namespace Settle

/-- A match dict as consumed by `SettlementEngine.execute_matches`
(`settlement.py` lines 38-70). -/
structure SMatch where
  buyOrderId : Nat
  sellOrderId : Nat
  buyerAddress : String
  sellerAddress : String
  amount : Int
  price : Int
deriving Repr, DecidableEq

/-- A transaction receipt as read by the polling loop of
`settlement.py` (lines 89-112): `status == 1` means success. -/
structure SReceipt where
  status : Nat
  blockNumber : Nat
  gasUsed : Nat
deriving Repr, DecidableEq

/-- Outcome of building, signing and broadcasting the `executeMatch`
transaction for one match: either some step raised, or the transaction
was accepted with a hash, after which attempt `i` of the receipt poll
returns `polls i` (an exception inside one poll attempt is caught in the
loop and is the same as no receipt, so it is modelled as `none`). -/
inductive SSubmit where
  | raises (msg : String)
  | accepted (txHash : String) (polls : Nat → Option SReceipt)

/-- Environment of `SettlementEngine.execute_matches`: whether a signing
key is configured, whether the address/int conversions at the top of the
loop body raise, and the chain behaviour of the submission. -/
structure SEnv where
  hasKey : Bool
  convert : SMatch → Option String
  submit : SMatch → SSubmit

/-- The settlement result dict appended per match by
`SettlementEngine.execute_matches`; `receiptInfo` is the nested
`receipt` dict (present only when a receipt was obtained), `error` the
`error` key (absent exactly when `none`). -/
structure SResult where
  success : Bool
  txHash : Option String
  error : Option String
  receiptInfo : Option SReceipt
  matched : SMatch
deriving Repr, DecidableEq

/-- First receipt returned within `n` further polling attempts starting
at attempt `start` (`settlement.py` lines 88-96: `for _ in range(30)`). -/
def firstReceiptAux (polls : Nat → Option SReceipt) : Nat → Nat → Option SReceipt
  | _, 0 => none
  | start, n + 1 =>
    match polls start with
    | some r => some r
    | none => firstReceiptAux polls (start + 1) n

/-- First receipt obtained within the 30-attempt polling budget. -/
def firstReceipt (polls : Nat → Option SReceipt) : Option SReceipt :=
  firstReceiptAux polls 0 30

/-- Body of the per-match loop of `SettlementEngine.execute_matches`
(`settlement.py` lines 38-138): conversion exceptions and submission
exceptions produce `{'success': False, 'error': str(e), 'match': m}`;
a missing key produces the no-key error result; a receipt within the
polling budget produces `{'success': status == 1, 'txHash': h, 'match':
m, 'receipt': {...}}` — with NO `error` key; no receipt produces the
confirmation-timeout error result. -/
def executeOne (env : SEnv) (m : SMatch) : SResult :=
  match env.convert m with
  | some msg =>
    { success := false, txHash := none, error := some msg,
      receiptInfo := none, matched := m }
  | none =>
    if env.hasKey then
      match env.submit m with
      | .raises msg =>
        { success := false, txHash := none, error := some msg,
          receiptInfo := none, matched := m }
      | .accepted h polls =>
        match firstReceipt polls with
        | some r =>
          { success := r.status = 1, txHash := some h, error := none,
            receiptInfo := some r, matched := m }
        | none =>
          { success := false, txHash := some h,
            error := some "Transaction not confirmed after waiting",
            receiptInfo := none, matched := m }
    else
      { success := false, txHash := none,
        error := some "No private key provided for transaction signing",
        receiptInfo := none, matched := m }

/-- `SettlementEngine.execute_matches` (`settlement.py` lines 32-140):
the matches are processed strictly sequentially and one result is
appended per match. -/
def executeMatches (env : SEnv) (ms : List SMatch) : List SResult :=
  ms.map (executeOne env)

end Settle

namespace Sched

/-- Outcome of one processing cycle (retrieve all orders, find matches,
execute matches): a summary `(matches found, matches executed)` or a
raised exception with its message. -/
inductive CycleOutcome where
  | ok (found executed : Nat)
  | err (msg : String)
deriving Repr, DecidableEq

/-- What one iteration of the polling loop leaves behind. -/
inductive LoopEvent where
  | completed (found executed : Nat)
  | caughtError (msg : String)
deriving Repr, DecidableEq

/-- One iteration of `ROFLSwapOracle.log_loop` (`roflswap_oracle.py`
lines 356-389): the whole cycle body sits in a `try`; `except Exception`
logs the error, after which the loop sleeps and continues either way. -/
def logLoopStep : CycleOutcome → LoopEvent
  | .ok f e => .completed f e
  | .err m => .caughtError m

/-- The first `n` iterations of `ROFLSwapOracle.log_loop` under the
cycle outcomes `cycles`. -/
def logLoopEvents (cycles : Nat → CycleOutcome) : Nat → List LoopEvent
  | 0 => []
  | n + 1 => logLoopEvents cycles n ++ [logLoopStep (cycles n)]

/-- `ROFLSwapOracle.run` with `once=True` (`roflswap_oracle.py` lines
399-435): `set_oracle_address` failures are caught and logged inside
`run` (lines 400-403), but the single cycle itself sits in a
`try/finally` with no `except`, so a cycle exception propagates out of
`run`. -/
def runOnce (setOracleFails : Bool) (cycle : CycleOutcome) :
    Except String (Nat × Nat) :=
  match setOracleFails, cycle with
  | _, .ok f e => .ok (f, e)
  | _, .err m => .error m

/-- How the process ends. -/
inductive ProcessExit where
  | normal
  | loggedExit (code : Nat) (msg : String)
  | crashed (msg : String)
deriving Repr, DecidableEq

/-- The exception handler around `oracle.run(...)` in `main.py` lines
103-107: any `Exception` escaping the run is caught, logged with
`logger.exception`, and converted into `sys.exit(1)` — never an
uncaught crash. -/
def mainGuard : Except String (Nat × Nat) → ProcessExit
  | .ok _ => .normal
  | .error e => .loggedExit 1 e

end Sched

namespace ME

/-- Environment of `MatchingEngine.load_orders` (`matching_engine.py`
lines 81-148): the `orderCounter` call (an error falls back to count 0),
the per-id `filledOrders` call (an error is treated as not filled), and
the per-id read of `web3.eth.accounts` used for the hardcoded owner
(`accounts[0]` when the list is non-empty, the zero address otherwise;
an error skips the order via the per-order `except`). -/
structure LoadEnv where
  orderCounter : Except Unit Nat
  filledOrders : Nat → Except Unit Bool
  accountsHead : Nat → Except Unit (Option String)

/-- The part of one `MatchingEngine.load_orders` iteration after the
filled check.  The constructed dict is the literal at lines 113-119
(token zero address, price 100, size 10, buy); `_normalize_order` is the
identity on this already well-typed literal, and the `size <= 0` /
`price <= 0` admission guards are kept verbatim. -/
def loadBody (env : LoadEnv) (oid : Nat) : Option Order :=
  match env.accountsHead oid with
  | .error _ => none
  | .ok acc =>
    let o : Order :=
      { orderId := oid, owner := acc.getD zeroAddr, token := zeroAddr,
        price := 100, size := 10, isBuy := true }
    if o.size ≤ 0 then none
    else if o.price ≤ 0 then none
    else some o

/-- One iteration of the `MatchingEngine.load_orders` loop for order id
`oid`; `none` means the order is skipped.  A filled order is skipped;
an error from the filled check is treated as not filled (the order is
still loaded). -/
def loadOne (env : LoadEnv) (oid : Nat) : Option Order :=
  match env.filledOrders oid with
  | .ok true => none
  | _ => loadBody env oid

/-- `MatchingEngine.load_orders` (`matching_engine.py` lines 81-148):
returns the rebuilt `(buy_orders, sell_orders)` books.  Every
constructed order has `isBuy = true`, so the sell book is always empty. -/
def loadOrders (env : LoadEnv) : List Order × List Order :=
  let count := match env.orderCounter with | .ok n => n | .error _ => 0
  let admitted := (List.range' 1 count).filterMap (loadOne env)
  (admitted.filter (fun o => o.isBuy), admitted.filter (fun o => !o.isBuy))

end ME

namespace V5

/-- A Python value found under the `price` or `size` key of a decoded
order dict: either already an int, or a string whose `int(...)`
conversion succeeds with the carried value or raises (`parsed = none`,
in which case `_normalize_order` defaults the field to 0). -/
inductive PyNum where
  | int (n : Int)
  | str (parsed : Option Int)
deriving Repr, DecidableEq

/-- A Python value found under the `isBuy` key: a bool, a string
(compared lowercased against `true`/`yes`/`1`), or any other value with
its truthiness. -/
inductive PyBoolVal where
  | bool (b : Bool)
  | str (s : String)
  | other (truthy : Bool)
deriving Repr, DecidableEq

/-- A decoded order dict before `_normalize_order`: each field may be
missing (the `owner` and `orderId` keys are set by `load_orders` itself
before normalization and so are not part of the raw record). -/
structure RawOrder where
  token : Option String
  price : Option PyNum
  size : Option PyNum
  isBuy : Option PyBoolVal
deriving Repr, DecidableEq

/-- Numeric-field normalization of `MatchingEngineV5._normalize_order`
(`matching_engine_v5.py` lines 77-89 and 102-107): string values are
`int(...)`-converted with default 0 on failure, missing fields default
to 0. -/
def normNum : Option PyNum → Int
  | none => 0
  | some (.int n) => n
  | some (.str none) => 0
  | some (.str (some n)) => n

/-- `isBuy` normalization of `MatchingEngineV5._normalize_order`
(lines 113-119). -/
def normBool : PyBoolVal → Bool
  | .bool b => b
  | .str s => lowerStr s == "true" || lowerStr s == "yes" || lowerStr s == "1"
  | .other t => t

/-- Environment of `MatchingEngineV5.load_orders`
(`matching_engine_v5.py` lines 153-235).  `decodeRaw` abstracts
`OrderSerialization.decode_order`, `jsonRaw` the JSON fallback of
`_deserialize_order`; `waterToken` is the contract token used by the
placeholder (`none` when `get_tokens` fails or returns a falsy value). -/
structure V5LoadEnv where
  orderCount : Except Unit Nat
  filledOrders : Nat → Except Unit Bool
  getEncryptedOrder : Nat → Except Unit Bool
  getOrderOwner : Nat → Except Unit String
  decodeRaw : Nat → Option RawOrder
  jsonRaw : Nat → Option RawOrder
  waterToken : Option String

/-- The placeholder order of `MatchingEngineV5._deserialize_order`
(lines 140-151), used when both decode attempts fail. -/
def placeholderRaw (env : V5LoadEnv) (oid : Nat) : RawOrder :=
  { token := some (env.waterToken.getD zeroAddr),
    price := some (.int (100 * 10 ^ 18)),
    size := some (.int (10 * 10 ^ 18)),
    isBuy := some (.bool (oid % 2 = 0)) }

/-- `MatchingEngineV5._deserialize_order` (lines 124-151): serializer
decode, then JSON fallback, then the testing placeholder. -/
def deserializeOrder (env : V5LoadEnv) (oid : Nat) : RawOrder :=
  match env.decodeRaw oid with
  | some r => r
  | none =>
    match env.jsonRaw oid with
    | some r => r
    | none => placeholderRaw env oid

/-- The part of one `MatchingEngineV5.load_orders` iteration after the
filled check: encrypted-data fetch (error skips), owner fetch (error
skips), falsy-data/owner skip, deserialize, owner/orderId/isBuy
injection, normalization, and the `size <= 0` / `price <= 0` admission
guards. -/
def loadBody (env : V5LoadEnv) (oid : Nat) : Option Order :=
  match env.getEncryptedOrder oid with
  | .error _ => none
  | .ok hasData =>
    match env.getOrderOwner oid with
    | .error _ => none
    | .ok owner =>
      if !hasData || owner = "" then none
      else
        let raw := deserializeOrder env oid
        let o : Order :=
          { orderId := oid, owner := owner,
            token := raw.token.getD zeroAddr,
            price := normNum raw.price,
            size := normNum raw.size,
            isBuy := normBool (raw.isBuy.getD (.bool (oid % 2 = 0))) }
        if o.size ≤ 0 then none
        else if o.price ≤ 0 then none
        else some o

/-- One iteration of the `MatchingEngineV5.load_orders` loop (lines
165-233) for order id `oid`; `none` means the order is skipped.
A filled order is skipped; an error from the filled check is treated as
not filled. -/
def loadOne (env : V5LoadEnv) (oid : Nat) : Option Order :=
  match env.filledOrders oid with
  | .ok true => none
  | _ => loadBody env oid

/-- `MatchingEngineV5.load_orders` (lines 153-235): the rebuilt
`(buy_orders, sell_orders)` books. -/
def loadOrders (env : V5LoadEnv) : List Order × List Order :=
  let count := match env.orderCount with | .ok n => n | .error _ => 0
  let admitted := (List.range' 1 count).filterMap (loadOne env)
  (admitted.filter (fun o => o.isBuy), admitted.filter (fun o => !o.isBuy))

end V5

/-- The fields of an order that the matching loops never mutate. -/
def CoreEq (a b : Order) : Prop :=
  b.orderId = a.orderId ∧ b.owner = a.owner ∧ b.token = a.token ∧ b.price = a.price

namespace ME

/-- Everything `scanSells buy sells = res` guarantees: the updated sell
book is the old one minus exactly the emitted sell-side fills (sizes
never driven negative), the updated buy order is the old one minus the
total emitted amount, and each emitted match was crossed under the
guards of the source loop against the remaining sizes at the moment it
was emitted (`pre` are the matches emitted before it). -/
structure ScanSpec (buy : Order) (sells : List Order)
    (res : List Order × Order × List MEMatch) : Prop where
  len : res.1.length = sells.length
  rel : ∀ j (h : j < sells.length) (h2 : j < res.1.length),
    CoreEq sells[j] res.1[j]
      ∧ res.1[j].size = sells[j].size - fillS sells[j].orderId res.2.2
      ∧ (0 ≤ sells[j].size → 0 ≤ res.1[j].size)
  buyCore : CoreEq buy res.2.1
  buySize : res.2.1.size = buy.size - sumAmounts res.2.2
  buyNonneg : 0 ≤ buy.size → 0 ≤ res.2.1.size
  memb : ∀ m ∈ res.2.2,
    m.buyOrderId = buy.orderId ∧ m.sellOrderId ∈ sells.map Order.orderId
  emit : ∀ pre m post, res.2.2 = pre ++ m :: post →
    0 < m.amount ∧ m.buyOrderId = buy.orderId ∧ m.buyerAddress = buy.owner
      ∧ m.buyToken = buy.token ∧ m.amount ≤ buy.size - sumAmounts pre
      ∧ ∃ j, ∃ hj : j < sells.length,
          m.sellOrderId = sells[j].orderId ∧ m.sellerAddress = sells[j].owner
          ∧ m.sellToken = sells[j].token ∧ m.price = sells[j].price
          ∧ buy.token = sells[j].token ∧ sells[j].price ≤ buy.price
          ∧ lowerStr buy.owner ≠ lowerStr sells[j].owner
          ∧ m.amount ≤ sells[j].size - fillS sells[j].orderId pre

/-- What one emitted match of the full buy loop satisfies, relative to
the original books and the matches `pre` emitted before it. -/
def MatchOut (buys sells : List Order) (pre : List MEMatch) (m : MEMatch) : Prop :=
  0 < m.amount ∧
  ∃ b ∈ buys, m.buyOrderId = b.orderId ∧ m.buyerAddress = b.owner
    ∧ m.buyToken = b.token ∧ 0 < b.size ∧ m.amount ≤ b.size - fillB b.orderId pre ∧
    ∃ s ∈ sells, m.sellOrderId = s.orderId ∧ m.sellerAddress = s.owner
      ∧ m.sellToken = s.token ∧ m.price = s.price ∧ b.token = s.token
      ∧ s.price ≤ b.price ∧ lowerStr b.owner ≠ lowerStr s.owner
      ∧ m.amount ≤ s.size - fillS s.orderId pre

/-- Everything `scanBuys buys sells = res` guarantees. -/
structure ScanBSpec (buys sells : List Order) (res : List Order × List MEMatch) : Prop where
  len : res.1.length = sells.length
  rel : ∀ j (h : j < sells.length) (h2 : j < res.1.length),
    CoreEq sells[j] res.1[j]
      ∧ res.1[j].size = sells[j].size - fillS sells[j].orderId res.2
      ∧ (0 ≤ sells[j].size → 0 ≤ res.1[j].size)
  memb : ∀ m ∈ res.2,
    m.buyOrderId ∈ buys.map Order.orderId ∧ m.sellOrderId ∈ sells.map Order.orderId
  buyFill : ∀ b ∈ buys, 0 ≤ b.size → fillB b.orderId res.2 ≤ b.size
  emit : ∀ pre m post, res.2 = pre ++ m :: post → MatchOut buys sells pre m

end ME

namespace OM

/-- The fields of an oracle-matching order that the loop never mutates. -/
def OMCoreEq (a b : OMOrder) : Prop :=
  b.orderId = a.orderId ∧ b.owner = a.owner ∧ b.token = a.token
    ∧ b.price = a.price ∧ b.isBuyOrder = a.isBuyOrder

/-- Everything the inner loop of
`ROFLSwapMatcher.find_matches` (oracle-matching variant) guarantees. -/
structure ScanSpec (buy : OMOrder) (sells : List OMOrder)
    (res : List OMOrder × OMOrder × List OMMatch) : Prop where
  len : res.1.length = sells.length
  rel : ∀ j (h : j < sells.length) (h2 : j < res.1.length),
    OMCoreEq sells[j] res.1[j]
      ∧ res.1[j].amount = sells[j].amount - fillSQ sells[j].orderId res.2.2
      ∧ (0 ≤ sells[j].amount → 0 ≤ res.1[j].amount)
  buyCore : OMCoreEq buy res.2.1
  buySize : res.2.1.amount = buy.amount - sumQ res.2.2
  buyNonneg : 0 ≤ buy.amount → 0 ≤ res.2.1.amount
  memb : ∀ m ∈ res.2.2,
    m.buyOrder.orderId = buy.orderId ∧ m.sellOrder.orderId ∈ sells.map OMOrder.orderId
  emit : ∀ pre m post, res.2.2 = pre ++ m :: post →
    0 < m.quantity ∧ m.buyOrder.orderId = buy.orderId
      ∧ m.buyOrder.owner = buy.owner ∧ m.buyOrder.token = buy.token
      ∧ m.buyOrder.price = buy.price ∧ m.quantity ≤ buy.amount - sumQ pre
      ∧ ∃ j, ∃ hj : j < sells.length,
          m.sellOrder.orderId = sells[j].orderId ∧ m.sellOrder.owner = sells[j].owner
          ∧ m.sellOrder.token = sells[j].token ∧ m.sellOrder.price = sells[j].price
          ∧ buy.token = sells[j].token ∧ sells[j].price ≤ buy.price
          ∧ buy.owner ≠ sells[j].owner
          ∧ m.quantity ≤ sells[j].amount - fillSQ sells[j].orderId pre

/-- What one emitted match of the oracle-matching buy loop satisfies,
relative to the original books and the earlier matches `pre`. -/
def OMMatchOut (buys sells : List OMOrder) (pre : List OMMatch) (m : OMMatch) : Prop :=
  0 < m.quantity ∧
  ∃ b ∈ buys, m.buyOrder.orderId = b.orderId ∧ m.buyOrder.owner = b.owner
    ∧ m.buyOrder.token = b.token ∧ m.buyOrder.price = b.price
    ∧ m.quantity ≤ b.amount - fillBQ b.orderId pre ∧
    ∃ s ∈ sells, m.sellOrder.orderId = s.orderId ∧ m.sellOrder.owner = s.owner
      ∧ m.sellOrder.token = s.token ∧ m.sellOrder.price = s.price
      ∧ b.token = s.token ∧ s.price ≤ b.price ∧ b.owner ≠ s.owner
      ∧ m.quantity ≤ s.amount - fillSQ s.orderId pre

/-- Everything the oracle-matching outer loop guarantees. -/
structure ScanBSpec (buys sells : List OMOrder) (res : List OMOrder × List OMMatch) : Prop where
  len : res.1.length = sells.length
  rel : ∀ j (h : j < sells.length) (h2 : j < res.1.length),
    OMCoreEq sells[j] res.1[j]
      ∧ res.1[j].amount = sells[j].amount - fillSQ sells[j].orderId res.2
      ∧ (0 ≤ sells[j].amount → 0 ≤ res.1[j].amount)
  memb : ∀ m ∈ res.2,
    m.buyOrder.orderId ∈ buys.map OMOrder.orderId
      ∧ m.sellOrder.orderId ∈ sells.map OMOrder.orderId
  emit : ∀ pre m post, res.2 = pre ++ m :: post → OMMatchOut buys sells pre m

end OM

namespace RA

/-- Sum of quantities the matches take from order id `oid` on the buy
side. -/
def fillBR (oid : Nat) (ms : List RAMatch) : Int :=
  ((ms.filter (fun m => m.buyOrder.orderId == oid)).map RAMatch.quantity).sum

/-- Sum of quantities the matches take from order id `oid` on the sell
side. -/
def fillSR (oid : Nat) (ms : List RAMatch) : Int :=
  ((ms.filter (fun m => m.sellOrder.orderId == oid)).map RAMatch.quantity).sum

/-- What each emitted match of the roflswapapp matcher satisfies,
relative to the matches `pre` emitted before it: crossing guards hold,
the quantity is the min of the two (unmutated) sizes, and the
already-matched check guarantees that no earlier match touches either
order. -/
def RAGood (orders : List Order) (pre : List RAMatch) (m : RAMatch) : Prop :=
  m.buyOrder ∈ orders ∧ m.buyOrder.isBuy = true
    ∧ m.sellOrder ∈ orders ∧ m.sellOrder.isBuy = false
    ∧ m.buyOrder.token = m.sellOrder.token
    ∧ m.sellOrder.price ≤ m.buyOrder.price
    ∧ m.quantity = min m.buyOrder.size m.sellOrder.size
    ∧ fillBR m.buyOrder.orderId pre = 0
    ∧ fillSR m.sellOrder.orderId pre = 0

/-- Split-invariant of the fold accumulator. -/
def RAInv (orders : List Order) (acc : List RAMatch) : Prop :=
  ∀ pre m post, acc = pre ++ m :: post → RAGood orders pre m

end RA

/-- Example order book from the spec scenarios: one buy order. -/
def bEx : Order := ⟨1, "0xbuyer1", "T", 100, 10, true⟩

/-- Example sell order at price 90, size 3. -/
def sEx1 : Order := ⟨2, "0xseller1", "T", 90, 3, false⟩

/-- Example sell order at price 98, size 8. -/
def sEx2 : Order := ⟨3, "0xseller2", "T", 98, 8, false⟩

/-- First match of the example book. -/
def mEx1 : MEMatch := ⟨1, 2, "0xbuyer1", "0xseller1", 3, 90, "T", "T"⟩

/-- Second match of the example book. -/
def mEx2 : MEMatch := ⟨1, 3, "0xbuyer1", "0xseller2", 7, 98, "T", "T"⟩

/-- Orders on which `ROFLSwapOracle.find_matches` emits a self-trade:
both owned by `0xA`. -/
def oracleC2orders : List Order :=
  [⟨1, "0xA", "T", 100, 5, true⟩, ⟨2, "0xA", "T", 90, 5, false⟩]

/-- Orders on which `ROFLSwapOracle.find_matches` oversells: two
crossing buys of size 5 each against a single sell of size 5. -/
def oracleC4orders : List Order :=
  [⟨1, "0xA", "T", 100, 5, true⟩, ⟨2, "0xB", "T", 100, 5, true⟩,
   ⟨3, "0xC", "T", 90, 5, false⟩]

/-- Orders on which the roflswapapp `find_matches` emits a
zero-quantity match: the buy has size 0. -/
def raC1orders : List Order :=
  [⟨1, "0xA", "T", 100, 0, true⟩, ⟨2, "0xB", "T", 90, 5, false⟩]

/-- Case-insensitivity example: buy owner differs from the sell owner
only in letter case, and a third-party sell is available. -/
def c10buys : List Order := [⟨1, "0xAbC", "T", 100, 10, true⟩]

/-- Sells for the case-insensitivity example. -/
def c10sells : List Order :=
  [⟨2, "0xabc", "T", 90, 3, false⟩, ⟨3, "0xB", "T", 95, 2, false⟩]

/-- Crossing soundness of `MatchingEngine.find_matches`: every emitted
match references a buy and a sell of the input books with equal tokens,
crossed prices, and a positive quantity bounded by both orders'
remaining sizes at the moment of emission (original size minus the
fills of the earlier matches `pre`). -/
def MECrossingOk (buys sells : List Order) : Prop :=
  ∀ pre m post, ME.findMatches buys sells = pre ++ m :: post →
    ∃ b ∈ buys, ∃ s ∈ sells,
      m.buyOrderId = b.orderId ∧ m.sellOrderId = s.orderId ∧
      b.token = s.token ∧ s.price ≤ b.price ∧
      0 < m.amount ∧ m.amount ≤ b.size - fillB b.orderId pre ∧
      m.amount ≤ s.size - fillS s.orderId pre

/-- Crossing soundness of the oracle-matching
`ROFLSwapMatcher.find_matches`, in the same sense. -/
def OMCrossingOk (orders : List OMOrder) : Prop :=
  ∀ pre m post, OM.findMatches orders = pre ++ m :: post →
    ∃ b ∈ orders, ∃ s ∈ orders,
      b.isBuyOrder = true ∧ s.isBuyOrder = false ∧
      m.buyOrder.orderId = b.orderId ∧ m.sellOrder.orderId = s.orderId ∧
      b.token = s.token ∧ s.price ≤ b.price ∧
      0 < m.quantity ∧ m.quantity ≤ b.amount - OM.fillBQ b.orderId pre ∧
      m.quantity ≤ s.amount - OM.fillSQ s.orderId pre

/-- Crossing soundness of the roflswapapp
`ROFLSwapMatcher.find_matches`, in the same sense (its matches embed
the order records directly). -/
def RACrossingOk (orders : List Order) : Prop :=
  ∀ pre m post, RA.findMatches orders = pre ++ m :: post →
    m.buyOrder ∈ orders ∧ m.sellOrder ∈ orders ∧
    m.buyOrder.token = m.sellOrder.token ∧
    m.sellOrder.price ≤ m.buyOrder.price ∧
    0 < m.quantity ∧
    m.quantity ≤ m.buyOrder.size - RA.fillBR m.buyOrder.orderId pre ∧
    m.quantity ≤ m.sellOrder.size - RA.fillSR m.sellOrder.orderId pre

/-- The argument tuple `settlement.py` submits for one match
(`executeMatch(buyOrderId, sellOrderId, buyer, seller, amount, price)`,
lines 64-71): the match price is passed through unchanged. -/
def settleExecuteMatchArgs (m : Settle.SMatch) :
    Nat × Nat × String × String × Int × Int :=
  (m.buyOrderId, m.sellOrderId, m.buyerAddress, m.sellerAddress, m.amount, m.price)

/-- Environment showing that the matching-service variant ignores the
contract `filledOrders` state: order 1 is marked filled, yet the
authenticated fetches succeed. -/
def omRetrEnvEx : OM.OMRetrEnv :=
  { filledOrders := fun _ => true,
    getOrderOwner := fun _ => .ok (some "0xA"),
    getOrderData := fun _ => .ok (some (.hexData (some (true, "0xT1", "0xT2", 5, 6)))),
    isLocalMode := false,
    mockAmount := fun _ => 0, mockPrice := fun _ => 0, mockOwner := fun _ => "0xM" }

/-- Environment for `ROFLSwapOracle.retrieve_order` in which order 1 is
already filled. -/
def orRetrEnvEx : OracleV5.RetrEnv :=
  { orderExists := fun _ => .ok true, filledOrders := fun _ => .ok true,
    getEncryptedOrder := fun _ => .ok true,
    getOrderOwner := fun _ => .ok (some "0xA"),
    decodeOrder := fun _ => some (1, "0xA", "T", 100, 10, true) }

/-- Reverted-transaction environment: the first poll returns a receipt
with failure status 0. -/
def settleRevertEnv : Settle.SEnv :=
  { hasKey := true, convert := fun _ => none,
    submit := fun _ => .accepted "0xh" (fun _ => some ⟨0, 7, 21000⟩) }

/-- Timeout environment: no poll ever returns a receipt. -/
def settleTimeoutEnv : Settle.SEnv :=
  { hasKey := true, convert := fun _ => none,
    submit := fun _ => .accepted "0xh2" (fun _ => none) }

/-- An example match for the settlement engine. -/
def settleMatchEx : Settle.SMatch := ⟨1, 2, "0xA", "0xB", 5, 90⟩

/-- Example environment for `MatchingEngine.load_orders` with a single
unfilled order. -/
def meLoadEnvEx : ME.LoadEnv :=
  { orderCounter := .ok 1, filledOrders := fun _ => .ok false,
    accountsHead := fun _ => .ok (some "0xAcc") }

end RoflSwap

namespace RoflSwap

theorem sumAmounts_nil : sumAmounts [] = 0 := rfl

theorem sumAmounts_cons (m : MEMatch) (l : List MEMatch) :
    sumAmounts (m :: l) = m.amount + sumAmounts l := by
  simp [sumAmounts]

theorem sumAmounts_append (l1 l2 : List MEMatch) :
    sumAmounts (l1 ++ l2) = sumAmounts l1 + sumAmounts l2 := by
  simp [sumAmounts]

theorem fillS_nil (oid : Nat) : fillS oid [] = 0 := rfl

theorem fillS_cons (oid : Nat) (m : MEMatch) (l : List MEMatch) :
    fillS oid (m :: l) =
      (if m.sellOrderId = oid then m.amount else 0) + fillS oid l := by
  by_cases h : m.sellOrderId = oid <;>
    simp [fillS, List.filter_cons, h, sumAmounts_cons]

theorem fillS_append (oid : Nat) (l1 l2 : List MEMatch) :
    fillS oid (l1 ++ l2) = fillS oid l1 + fillS oid l2 := by
  simp [fillS, List.filter_append, sumAmounts_append]

theorem fillB_nil (oid : Nat) : fillB oid [] = 0 := rfl

theorem fillB_cons (oid : Nat) (m : MEMatch) (l : List MEMatch) :
    fillB oid (m :: l) =
      (if m.buyOrderId = oid then m.amount else 0) + fillB oid l := by
  by_cases h : m.buyOrderId = oid <;>
    simp [fillB, List.filter_cons, h, sumAmounts_cons]

theorem fillB_append (oid : Nat) (l1 l2 : List MEMatch) :
    fillB oid (l1 ++ l2) = fillB oid l1 + fillB oid l2 := by
  simp [fillB, List.filter_append, sumAmounts_append]

theorem fillS_eq_zero {oid : Nat} {ms : List MEMatch}
    (h : ∀ m ∈ ms, m.sellOrderId ≠ oid) : fillS oid ms = 0 := by
  induction ms with
  | nil => rfl
  | cons m l ih =>
    rw [fillS_cons, if_neg (h m (List.mem_cons_self m l)),
      ih (fun m' hm' => h m' (List.mem_cons_of_mem m hm'))]
    ring

theorem fillB_eq_zero {oid : Nat} {ms : List MEMatch}
    (h : ∀ m ∈ ms, m.buyOrderId ≠ oid) : fillB oid ms = 0 := by
  induction ms with
  | nil => rfl
  | cons m l ih =>
    rw [fillB_cons, if_neg (h m (List.mem_cons_self m l)),
      ih (fun m' hm' => h m' (List.mem_cons_of_mem m hm'))]
    ring

theorem fillB_all {oid : Nat} {ms : List MEMatch}
    (h : ∀ m ∈ ms, m.buyOrderId = oid) : fillB oid ms = sumAmounts ms := by
  induction ms with
  | nil => rfl
  | cons m l ih =>
    rw [fillB_cons, if_pos (h m (List.mem_cons_self m l)),
      ih (fun m' hm' => h m' (List.mem_cons_of_mem m hm')), sumAmounts_cons]

theorem coreEq_self (a : Order) : CoreEq a a := ⟨rfl, rfl, rfl, rfl⟩

namespace ME

/-- A skipped sell at the head of the book passes the spec through. -/
theorem scanSpec_skip {buy s : Order} {rest : List Order}
    {res : List Order × Order × List MEMatch}
    (hs : s.orderId ∉ rest.map Order.orderId)
    (h : ScanSpec buy rest res) :
    ScanSpec buy (s :: rest) (s :: res.1, res.2.1, res.2.2) := by
  have hzero : fillS s.orderId res.2.2 = 0 :=
    fillS_eq_zero (fun m hm => by
      intro hcontra
      exact hs (hcontra ▸ (h.memb m hm).2))
  refine ⟨by simp [h.len], ?_, h.buyCore, h.buySize, h.buyNonneg, ?_, ?_⟩
  · intro j hj hj2
    match j with
    | 0 => simpa using ⟨coreEq_self s, by simp [hzero]⟩
    | j + 1 =>
      have hj' : j < rest.length := by simpa using hj
      have hj2' : j < res.1.length := by simpa using hj2
      simpa using h.rel j hj' hj2'
  · intro m hm
    exact ⟨(h.memb m hm).1, by simp [(h.memb m hm).2]⟩
  · intro pre m post hsplit
    obtain ⟨h1, h2, h3, h4, h5, j, hj, hrest⟩ := h.emit pre m post hsplit
    exact ⟨h1, h2, h3, h4, h5, j + 1, by simpa using hj, by simpa using hrest⟩

/-- Master lemma for the inner loop of `MatchingEngine.find_matches`:
under distinct sell order ids, `scanSells` satisfies `ScanSpec`. -/
theorem scanSells_spec :
    ∀ (sells : List Order) (buy : Order),
      (sells.map Order.orderId).Nodup →
      ScanSpec buy sells (scanSells buy sells) := by
  intro sells
  induction sells with
  | nil =>
    intro buy _
    refine ⟨rfl, ?_, coreEq_self buy, ?_, ?_, ?_, ?_⟩
    · intro j hj _; exact absurd hj (by simp [scanSells])
    · simp [scanSells, sumAmounts_nil]
    · intro h; simpa [scanSells] using h
    · intro m hm; exact absurd hm (by simp [scanSells])
    · intro pre m post hsplit
      exact absurd (congrArg List.length hsplit) (by simp [scanSells]; omega)
  | cons s rest ih =>
    intro buy hnd
    rw [List.map_cons, List.nodup_cons] at hnd
    have hnd' : (rest.map Order.orderId).Nodup := hnd.2
    have hsid : s.orderId ∉ rest.map Order.orderId := hnd.1
    have hne : ∀ j (hj : j < rest.length), rest[j].orderId ≠ s.orderId := by
      intro j hj h
      exact hsid (h ▸ List.mem_map_of_mem Order.orderId (rest.getElem_mem hj))
    by_cases h1 : s.size ≤ 0
    · have heq : scanSells buy (s :: rest) =
          (s :: (scanSells buy rest).1, (scanSells buy rest).2.1,
            (scanSells buy rest).2.2) := by
        simp [scanSells, h1]
      rw [heq]
      exact scanSpec_skip hsid (ih buy hnd')
    by_cases h2 : buy.token ≠ s.token
    · have heq : scanSells buy (s :: rest) =
          (s :: (scanSells buy rest).1, (scanSells buy rest).2.1,
            (scanSells buy rest).2.2) := by
        simp [scanSells, h1, h2]
      rw [heq]
      exact scanSpec_skip hsid (ih buy hnd')
    by_cases h3 : lowerStr buy.owner = lowerStr s.owner
    · have heq : scanSells buy (s :: rest) =
          (s :: (scanSells buy rest).1, (scanSells buy rest).2.1,
            (scanSells buy rest).2.2) := by
        simp [scanSells, h1, h2, h3]
      rw [heq]
      exact scanSpec_skip hsid (ih buy hnd')
    by_cases h4 : s.price ≤ buy.price
    case neg =>
      have heq : scanSells buy (s :: rest) =
          (s :: (scanSells buy rest).1, (scanSells buy rest).2.1,
            (scanSells buy rest).2.2) := by
        simp [scanSells, h1, h2, h3, h4]
      rw [heq]
      exact scanSpec_skip hsid (ih buy hnd')
    by_cases h5 : 0 < min buy.size s.size
    case neg =>
      have heq : scanSells buy (s :: rest) =
          (s :: (scanSells buy rest).1, (scanSells buy rest).2.1,
            (scanSells buy rest).2.2) := by
        simp [scanSells, h1, h2, h3, h4, h5]
      rw [heq]
      exact scanSpec_skip hsid (ih buy hnd')
    -- emission: the head sell is crossed with the buy order
    have hamtb : min buy.size s.size ≤ buy.size := min_le_left _ _
    have hamts : min buy.size s.size ≤ s.size := min_le_right _ _
    have htok : buy.token = s.token := not_not.mp h2
    by_cases hbr : buy.size - min buy.size s.size = 0
    · -- the buy order is fully filled: break
      have heq : scanSells buy (s :: rest) =
          ({ s with size := s.size - min buy.size s.size } :: rest,
            { buy with size := buy.size - min buy.size s.size },
            [⟨buy.orderId, s.orderId, buy.owner, s.owner, min buy.size s.size,
              s.price, buy.token, s.token⟩]) := by
        simp [scanSells, h1, h2, h3, h4, h5, hbr]
      rw [heq]
      refine ⟨by simp, ?_, coreEq_self _, ?_, ?_, ?_, ?_⟩
      · intro j hj hj2
        match j with
        | 0 =>
          refine ⟨⟨rfl, rfl, rfl, rfl⟩, ?_, ?_⟩
          · simp [fillS_cons, fillS_nil]
          · intro h0
            simpa using Int.sub_nonneg.mpr (le_trans hamts le_rfl)
        | j + 1 =>
          have hj' : j < rest.length := by simpa using hj
          refine ⟨by simpa using coreEq_self rest[j], ?_, by intro h0; simpa using h0⟩
          have : fillS rest[j].orderId
              [(⟨buy.orderId, s.orderId, buy.owner, s.owner, min buy.size s.size,
                s.price, buy.token, s.token⟩ : MEMatch)] = 0 := by
            rw [fillS_cons, if_neg (by simpa using (hne j hj').symm), fillS_nil]
            ring
          simp [this]
      · simp [sumAmounts_cons, sumAmounts_nil]
      · intro _; simp [hbr]
      · intro m hm
        simp at hm
        subst hm
        exact ⟨rfl, by simp⟩
      · intro pre m post hsplit
        have hlen := congrArg List.length hsplit
        simp at hlen
        have hpre : pre = [] := by
          cases pre with
          | nil => rfl
          | cons a b => simp at hlen; omega
        subst hpre
        simp at hsplit
        obtain ⟨rfl, -⟩ := hsplit
        refine ⟨h5, rfl, rfl, rfl, by simpa [sumAmounts_nil] using hamtb,
          0, by simp, rfl, rfl, rfl, rfl, htok, h4, h3, ?_⟩
        simpa [fillS_nil] using hamts
    · -- the buy order still has size: continue scanning with the tail
      have heq : scanSells buy (s :: rest) =
          ({ s with size := s.size - min buy.size s.size } ::
              (scanSells { buy with size := buy.size - min buy.size s.size } rest).1,
            (scanSells { buy with size := buy.size - min buy.size s.size } rest).2.1,
            (⟨buy.orderId, s.orderId, buy.owner, s.owner, min buy.size s.size,
              s.price, buy.token, s.token⟩ : MEMatch) ::
              (scanSells { buy with size := buy.size - min buy.size s.size } rest).2.2) := by
        simp [scanSells, h1, h2, h3, h4, h5, hbr]
      rw [heq]
      set buy2 : Order := { buy with size := buy.size - min buy.size s.size } with hbuy2
      have hspec := ih buy2 hnd'
      have hms0 : fillS s.orderId (scanSells buy2 rest).2.2 = 0 :=
        fillS_eq_zero (fun m hm hcontra => hsid (hcontra ▸ (hspec.memb m hm).2))
      refine ⟨by simp [hspec.len], ?_, ?_, ?_, ?_, ?_, ?_⟩
      · intro j hj hj2
        match j with
        | 0 =>
          refine ⟨⟨rfl, rfl, rfl, rfl⟩, ?_, ?_⟩
          · simp [fillS_cons, hms0]
          · intro h0
            simpa using Int.sub_nonneg.mpr hamts
        | j + 1 =>
          have hj' : j < rest.length := by simpa using hj
          have hj2' : j < (scanSells buy2 rest).1.length := by simpa using hj2
          obtain ⟨hcore, hsize, hpos⟩ := hspec.rel j hj' hj2'
          refine ⟨by simpa using hcore, ?_, by intro h0; simpa using hpos (by simpa using h0)⟩
          have : fillS rest[j].orderId
              ((⟨buy.orderId, s.orderId, buy.owner, s.owner, min buy.size s.size,
                s.price, buy.token, s.token⟩ : MEMatch) ::
                (scanSells buy2 rest).2.2) =
              fillS rest[j].orderId (scanSells buy2 rest).2.2 := by
            rw [fillS_cons, if_neg (by simpa using (hne j hj').symm)]
            ring
          simpa [this] using hsize
      · obtain ⟨ha, hb, hc, hd⟩ := hspec.buyCore
        exact ⟨ha, hb, hc, hd⟩
      · have := hspec.buySize
        rw [this]
        simp [hbuy2, sumAmounts_cons]
        ring
      · intro _
        exact hspec.buyNonneg (by simpa [hbuy2] using Int.sub_nonneg.mpr hamtb)
      · intro m hm
        rcases List.mem_cons.mp hm with rfl | hm'
        · exact ⟨rfl, by simp⟩
        · exact ⟨(hspec.memb m hm').1, by simp [(hspec.memb m hm').2]⟩
      · intro pre m post hsplit
        cases pre with
        | nil =>
          simp at hsplit
          obtain ⟨rfl, -⟩ := hsplit
          refine ⟨h5, rfl, rfl, rfl, by simpa [sumAmounts_nil] using hamtb,
            0, by simp, rfl, rfl, rfl, rfl, htok, h4, h3, ?_⟩
          simpa [fillS_nil] using hamts
        | cons hd tl =>
          simp at hsplit
          obtain ⟨rfl, htl⟩ := hsplit
          obtain ⟨g1, g2, g3, g4, g5, j, hj, gs1, gs2, gs3, gs4, gs5, gs6, gs7, gs8⟩ :=
            hspec.emit tl m post htl
          refine ⟨g1, g2, g3, g4, ?_, j + 1, by simpa using hj, by simpa using gs1,
            by simpa using gs2, by simpa using gs3, by simpa using gs4,
            by simpa using gs5, by simpa using gs6, by simpa using gs7, ?_⟩
          · have hb2 : buy2.size = buy.size - min buy.size s.size := rfl
            have g5' : m.amount ≤ buy.size - min buy.size s.size - sumAmounts tl := by
              rw [hb2] at g5; exact g5
            rw [sumAmounts_cons]
            have hamt : (⟨buy.orderId, s.orderId, buy.owner, s.owner,
                min buy.size s.size, s.price, buy.token, s.token⟩ : MEMatch).amount =
                min buy.size s.size := rfl
            rw [hamt]
            omega
          · have hj' : j < rest.length := hj
            have : fillS rest[j].orderId
                ((⟨buy.orderId, s.orderId, buy.owner, s.owner, min buy.size s.size,
                  s.price, buy.token, s.token⟩ : MEMatch) :: tl) =
                fillS rest[j].orderId tl := by
              rw [fillS_cons, if_neg (by simpa using (hne j hj').symm)]
              ring
            simpa [this] using gs8

/-- The ids of the updated sell book coincide with the original ones. -/
theorem scanSpec_idsEq {buy : Order} {sells : List Order}
    {res : List Order × Order × List MEMatch} (h : ScanSpec buy sells res) :
    res.1.map Order.orderId = sells.map Order.orderId := by
  apply List.ext_getElem (by simp [h.len])
  intro j h1 h2
  simp only [List.getElem_map]
  exact ((h.rel j (by simpa using h2) (by simpa using h1)).1).1

/-- Master lemma for the outer loop of `MatchingEngine.find_matches`. -/
theorem scanBuys_spec :
    ∀ (buys sells : List Order),
      (buys.map Order.orderId).Nodup → (sells.map Order.orderId).Nodup →
      ScanBSpec buys sells (scanBuys buys sells) := by
  intro buys
  induction buys with
  | nil =>
    intro sells _ _
    refine ⟨rfl, ?_, ?_, ?_, ?_⟩
    · intro j hj hj2
      exact ⟨coreEq_self _, by simp [scanBuys, fillS_nil], fun h => by simpa [scanBuys] using h⟩
    · intro m hm; exact absurd hm (by simp [scanBuys])
    · intro b _ h0; simp [scanBuys, fillB_nil]; exact h0
    · intro pre m post hsplit
      exact absurd (congrArg List.length hsplit) (by simp [scanBuys]; omega)
  | cons b bs ih =>
    intro sells hb hs
    rw [List.map_cons, List.nodup_cons] at hb
    have hbid : b.orderId ∉ bs.map Order.orderId := hb.1
    have hb' : (bs.map Order.orderId).Nodup := hb.2
    by_cases hsz : b.size ≤ 0
    · have heq : scanBuys (b :: bs) sells = scanBuys bs sells := by
        simp [scanBuys, hsz]
      rw [heq]
      have hspec := ih sells hb' hs
      refine ⟨hspec.len, hspec.rel, ?_, ?_, ?_⟩
      · intro m hm
        exact ⟨by simp [(hspec.memb m hm).1], (hspec.memb m hm).2⟩
      · intro b' hb'' h0
        rcases List.mem_cons.mp hb'' with rfl | hmem
        · have : fillB b'.orderId (scanBuys bs sells).2 = 0 :=
            fillB_eq_zero (fun m hm hc => hbid (hc ▸ (hspec.memb m hm).1))
          rw [this]; exact h0
        · exact hspec.buyFill b' hmem h0
      · intro pre m post hsplit
        obtain ⟨h1, b', hb'', hrest⟩ := hspec.emit pre m post hsplit
        exact ⟨h1, b', List.mem_cons_of_mem b hb'', hrest⟩
    · have heq : scanBuys (b :: bs) sells =
          ((scanBuys bs (scanSells b sells).1).1,
            (scanSells b sells).2.2 ++ (scanBuys bs (scanSells b sells).1).2) := by
        simp [scanBuys, hsz]
      rw [heq]
      have hspec := scanSells_spec sells b hs
      have hs1 : ((scanSells b sells).1.map Order.orderId).Nodup := by
        rw [scanSpec_idsEq hspec]; exact hs
      have hspec2 := ih (scanSells b sells).1 hb' hs1
      have hbpos : 0 < b.size := lt_of_not_le hsz
      -- every match of the first batch is attributed to `b` on the buy side
      have hbatch : ∀ m ∈ (scanSells b sells).2.2, m.buyOrderId = b.orderId :=
        fun m hm => (hspec.memb m hm).1
      -- matches of the recursive batch never touch `b` on the buy side
      have hrec0 : fillB b.orderId (scanBuys bs (scanSells b sells).1).2 = 0 :=
        fillB_eq_zero (fun m hm hc => hbid (hc ▸ (hspec2.memb m hm).1))
      refine ⟨?_, ?_, ?_, ?_, ?_⟩
      · rw [hspec2.len, hspec.len]
      · intro j hj hj2
        have hj1 : j < (scanSells b sells).1.length := by rw [hspec.len]; exact hj
        have hj2' : j < (scanBuys bs (scanSells b sells).1).1.length := hj2
        obtain ⟨c1, s1, p1⟩ := hspec.rel j hj hj1
        obtain ⟨c2, s2, p2⟩ := hspec2.rel j hj1 hj2'
        have hid : (scanSells b sells).1[j].orderId = sells[j].orderId := c1.1
        refine ⟨⟨by rw [c2.1, c1.1], by rw [c2.2.1, c1.2.1], by rw [c2.2.2.1, c1.2.2.1],
          by rw [c2.2.2.2, c1.2.2.2]⟩, ?_, fun h0 => p2 (p1 h0)⟩
        rw [s2, hid, s1, fillS_append]
        ring
      · intro m hm
        rcases List.mem_append.mp hm with hm' | hm'
        · exact ⟨by simp [(hspec.memb m hm').1], (hspec.memb m hm').2⟩
        · refine ⟨by simp [(hspec2.memb m hm').1], ?_⟩
          have := (hspec2.memb m hm').2
          rwa [scanSpec_idsEq hspec] at this
      · intro b' hb'' h0
        rcases List.mem_cons.mp hb'' with rfl | hmem
        · rw [fillB_append, hrec0, fillB_all hbatch]
          have h1 := hspec.buySize
          have h2 := hspec.buyNonneg h0
          omega
        · have hne : b.orderId ≠ b'.orderId := by
            intro hc
            exact hbid (hc ▸ List.mem_map_of_mem Order.orderId hmem)
          have hz : fillB b'.orderId (scanSells b sells).2.2 = 0 :=
            fillB_eq_zero (fun m hm hc => hne (by rw [← hc, hbatch m hm]))
          rw [fillB_append, hz]
          have := hspec2.buyFill b' hmem h0
          omega
      · intro pre m post hsplit
        rcases List.append_eq_append_iff.mp hsplit.symm with ⟨a2, ha1, ha2⟩ | ⟨c2, hc1, hc2⟩
        · -- the split point lies inside the first batch (or right after it)
          cases a2 with
          | nil =>
            -- boundary: `m` is the first recursive match, empty local history
            have hpre : (scanSells b sells).2.2 = pre := by simpa using ha1
            have hrec : (scanBuys bs (scanSells b sells).1).2 = [] ++ m :: post := by
              simpa using ha2.symm
            obtain ⟨h1, b', hmemb, g1, g2, g3, g4, g5, s', hmems, t1, t2, t3, t4, t5, t6, t7, t8⟩ :=
              hspec2.emit [] m post hrec
            refine ⟨h1, b', List.mem_cons_of_mem b hmemb, g1, g2, g3, g4, ?_, ?_⟩
            · have hne : b.orderId ≠ b'.orderId := by
                intro hc
                exact hbid (hc ▸ List.mem_map_of_mem Order.orderId hmemb)
              have hz : fillB b'.orderId (scanSells b sells).2.2 = 0 :=
                fillB_eq_zero (fun m' hm' hc => hne (by rw [← hc, hbatch m' hm']))
              rw [← hpre, hz]
              simpa [fillB_nil] using g5
            · obtain ⟨j, hj1, hsj⟩ := List.getElem_of_mem hmems
              have hj : j < sells.length := by rw [← hspec.len]; exact hj1
              obtain ⟨c1, s1, p1⟩ := hspec.rel j hj hj1
              refine ⟨sells[j], sells.getElem_mem hj, ?_, ?_, ?_, ?_, ?_, ?_, ?_, ?_⟩
              · rw [t1, ← hsj, c1.1]
              · rw [t2, ← hsj, c1.2.1]
              · rw [t3, ← hsj, c1.2.2.1]
              · rw [t4, ← hsj, c1.2.2.2.symm]
              · rw [t5, ← hsj, c1.2.2.1]
              · calc sells[j].price = s'.price := by rw [← hsj, c1.2.2.2]
                  _ ≤ b'.price := t6
              · rw [show sells[j].owner = s'.owner from by rw [← hsj, c1.2.1]]
                exact t7
              · have hsize : s'.size =
                    sells[j].size - fillS sells[j].orderId (scanSells b sells).2.2 := by
                  rw [← hsj]; exact s1
                have hids : s'.orderId = sells[j].orderId := by rw [← hsj, c1.1]
                rw [← hpre]
                rw [hsize, hids] at t8
                simp [fillS_nil] at t8
                omega
          | cons mhd a2' =>
            -- `m` lies in the first batch, local history = `pre`
            have hc2' : m = mhd ∧ post = a2' ++ (scanBuys bs (scanSells b sells).1).2 := by
              simpa using ha2
            obtain ⟨rfl, -⟩ := hc2'
            have hinner : (scanSells b sells).2.2 = pre ++ m :: a2' := ha1
            obtain ⟨h1, g1, g2, g3, g4, j, hj, t1, t2, t3, t4, t5, t6, t7, t8⟩ :=
              hspec.emit pre m a2' hinner
            have hpreb : ∀ m' ∈ pre, m'.buyOrderId = b.orderId := by
              intro m' hm'
              exact hbatch m' (by rw [hinner]; exact List.mem_append_left _ hm')
            refine ⟨h1, b, List.mem_cons_self b bs, g1, g2, g3, hbpos, ?_, ?_⟩
            · rw [fillB_all hpreb]
              exact g4
            · exact ⟨sells[j], sells.getElem_mem hj, t1, t2, t3, t4, t5, t6, t7, t8⟩
        · -- `m` lies in the recursive batch, local history = `c2`
          obtain ⟨h1, b', hmemb, g1, g2, g3, g4, g5, s', hmems, t1, t2, t3, t4, t5, t6, t7, t8⟩ :=
            hspec2.emit c2 m post hc2
          refine ⟨h1, b', List.mem_cons_of_mem b hmemb, g1, g2, g3, g4, ?_, ?_⟩
          · have hne : b.orderId ≠ b'.orderId := by
              intro hc
              exact hbid (hc ▸ List.mem_map_of_mem Order.orderId hmemb)
            have hz : fillB b'.orderId (scanSells b sells).2.2 = 0 :=
              fillB_eq_zero (fun m' hm' hc => hne (by rw [← hc, hbatch m' hm']))
            rw [hc1, fillB_append, hz]
            omega
          · obtain ⟨j, hj1, hsj⟩ := List.getElem_of_mem hmems
            have hj : j < sells.length := by rw [← hspec.len]; exact hj1
            obtain ⟨c1, s1, p1⟩ := hspec.rel j hj hj1
            refine ⟨sells[j], sells.getElem_mem hj, ?_, ?_, ?_, ?_, ?_, ?_, ?_, ?_⟩
            · rw [t1, ← hsj, c1.1]
            · rw [t2, ← hsj, c1.2.1]
            · rw [t3, ← hsj, c1.2.2.1]
            · rw [t4, ← hsj, c1.2.2.2.symm]
            · rw [t5, ← hsj, c1.2.2.1]
            · calc sells[j].price = s'.price := by rw [← hsj, c1.2.2.2]
                _ ≤ b'.price := t6
            · rw [show sells[j].owner = s'.owner from by rw [← hsj, c1.2.1]]
              exact t7
            · have hsize : s'.size =
                  sells[j].size - fillS sells[j].orderId (scanSells b sells).2.2 := by
                rw [← hsj]; exact s1
              have hids : s'.orderId = sells[j].orderId := by rw [← hsj, c1.1]
              rw [hc1, fillS_append]
              rw [hsize, hids] at t8
              omega

/-- `MatchOut` only mentions the books through membership, so it
transfers along permutations (in particular along the sorting). -/
theorem MatchOut_perm {buys1 buys2 sells1 sells2 : List Order}
    {pre : List MEMatch} {m : MEMatch}
    (hbp : buys1.Perm buys2) (hsp : sells1.Perm sells2)
    (h : MatchOut buys1 sells1 pre m) : MatchOut buys2 sells2 pre m := by
  obtain ⟨h1, b, hmb, g1, g2, g3, g4, g5, s, hms, hrest⟩ := h
  exact ⟨h1, b, hbp.mem_iff.mp hmb, g1, g2, g3, g4, g5, s, hsp.mem_iff.mp hms, hrest⟩

theorem scanBSpec_sellFill {buys sells : List Order} {res : List Order × List MEMatch}
    (h : ScanBSpec buys sells res) :
    ∀ s ∈ sells, 0 ≤ s.size → fillS s.orderId res.2 ≤ s.size := by
  intro s hmem h0
  obtain ⟨j, hj, hsj⟩ := List.getElem_of_mem hmem
  subst hsj
  obtain ⟨c1, s1, p1⟩ := h.rel j hj (by rw [h.len]; exact hj)
  have := p1 h0
  omega

/-- Matches of `MatchingEngine.find_matches` with the crossing facts
relative to the original (unsorted) books. -/
theorem findMatches_emit (buys sells : List Order)
    (hb : (buys.map Order.orderId).Nodup) (hs : (sells.map Order.orderId).Nodup) :
    ∀ pre m post, findMatches buys sells = pre ++ m :: post →
      MatchOut buys sells pre m := by
  intro pre m post hsplit
  unfold findMatches at hsplit
  by_cases hemp : buys.isEmpty || sells.isEmpty
  · rw [if_pos hemp] at hsplit
    exact absurd (congrArg List.length hsplit) (by simp; omega)
  · rw [if_neg hemp] at hsplit
    have hpb : (sortBuys buys).Perm buys := List.mergeSort_perm buys _
    have hps : (sortSells sells).Perm sells := List.mergeSort_perm sells _
    have hb' : ((sortBuys buys).map Order.orderId).Nodup :=
      ((hpb.map Order.orderId).nodup_iff).mpr hb
    have hs' : ((sortSells sells).map Order.orderId).Nodup :=
      ((hps.map Order.orderId).nodup_iff).mpr hs
    have hspec := scanBuys_spec (sortBuys buys) (sortSells sells) hb' hs'
    exact MatchOut_perm hpb hps (hspec.emit pre m post hsplit)

/-- Buy-side conservation for `MatchingEngine.find_matches`. -/
theorem findMatches_buyFill (buys sells : List Order)
    (hb : (buys.map Order.orderId).Nodup) (hs : (sells.map Order.orderId).Nodup) :
    ∀ b ∈ buys, 0 ≤ b.size → fillB b.orderId (findMatches buys sells) ≤ b.size := by
  intro b hmem h0
  unfold findMatches
  by_cases hemp : buys.isEmpty || sells.isEmpty
  · rw [if_pos hemp, fillB_nil]; exact h0
  · rw [if_neg hemp]
    have hpb : (sortBuys buys).Perm buys := List.mergeSort_perm buys _
    have hps : (sortSells sells).Perm sells := List.mergeSort_perm sells _
    have hb' : ((sortBuys buys).map Order.orderId).Nodup :=
      ((hpb.map Order.orderId).nodup_iff).mpr hb
    have hs' : ((sortSells sells).map Order.orderId).Nodup :=
      ((hps.map Order.orderId).nodup_iff).mpr hs
    exact (scanBuys_spec _ _ hb' hs').buyFill b (hpb.mem_iff.mpr hmem) h0

/-- Sell-side conservation for `MatchingEngine.find_matches`. -/
theorem findMatches_sellFill (buys sells : List Order)
    (hb : (buys.map Order.orderId).Nodup) (hs : (sells.map Order.orderId).Nodup) :
    ∀ s ∈ sells, 0 ≤ s.size → fillS s.orderId (findMatches buys sells) ≤ s.size := by
  intro s hmem h0
  unfold findMatches
  by_cases hemp : buys.isEmpty || sells.isEmpty
  · rw [if_pos hemp, fillS_nil]; exact h0
  · rw [if_neg hemp]
    have hpb : (sortBuys buys).Perm buys := List.mergeSort_perm buys _
    have hps : (sortSells sells).Perm sells := List.mergeSort_perm sells _
    have hb' : ((sortBuys buys).map Order.orderId).Nodup :=
      ((hpb.map Order.orderId).nodup_iff).mpr hb
    have hs' : ((sortSells sells).map Order.orderId).Nodup :=
      ((hps.map Order.orderId).nodup_iff).mpr hs
    exact scanBSpec_sellFill (scanBuys_spec _ _ hb' hs') s (hps.mem_iff.mpr hmem) h0

/-- Every match of `MatchingEngine.find_matches` references order ids of
the input books. -/
theorem findMatches_memb (buys sells : List Order)
    (hb : (buys.map Order.orderId).Nodup) (hs : (sells.map Order.orderId).Nodup) :
    ∀ m ∈ findMatches buys sells,
      m.buyOrderId ∈ buys.map Order.orderId ∧
      m.sellOrderId ∈ sells.map Order.orderId := by
  intro m hm
  unfold findMatches at hm
  by_cases hemp : buys.isEmpty || sells.isEmpty
  · rw [if_pos hemp] at hm; exact absurd hm (by simp)
  · rw [if_neg hemp] at hm
    have hpb : (sortBuys buys).Perm buys := List.mergeSort_perm buys _
    have hps : (sortSells sells).Perm sells := List.mergeSort_perm sells _
    have hb' : ((sortBuys buys).map Order.orderId).Nodup :=
      ((hpb.map Order.orderId).nodup_iff).mpr hb
    have hs' : ((sortSells sells).map Order.orderId).Nodup :=
      ((hps.map Order.orderId).nodup_iff).mpr hs
    obtain ⟨h1, h2⟩ := (scanBuys_spec _ _ hb' hs').memb m hm
    exact ⟨(hpb.map Order.orderId).mem_iff.mp h1, (hps.map Order.orderId).mem_iff.mp h2⟩

/-- The self-trade guard of `MatchingEngine.find_matches`, with no side
assumptions: every emitted match has case-insensitively distinct buyer
and seller (inner loop). -/
theorem scanSells_owner_ne :
    ∀ (sells : List Order) (buy : Order) (m : MEMatch),
      m ∈ (scanSells buy sells).2.2 →
      lowerStr m.buyerAddress ≠ lowerStr m.sellerAddress := by
  intro sells
  induction sells with
  | nil => intro buy m hm; exact absurd hm (by simp [scanSells])
  | cons s rest ih =>
    intro buy m hm
    by_cases h1 : s.size ≤ 0
    · rw [show (scanSells buy (s :: rest)).2.2 = (scanSells buy rest).2.2 from by
        simp [scanSells, h1]] at hm
      exact ih buy m hm
    by_cases h2 : buy.token ≠ s.token
    · rw [show (scanSells buy (s :: rest)).2.2 = (scanSells buy rest).2.2 from by
        simp [scanSells, h1, h2]] at hm
      exact ih buy m hm
    by_cases h3 : lowerStr buy.owner = lowerStr s.owner
    · rw [show (scanSells buy (s :: rest)).2.2 = (scanSells buy rest).2.2 from by
        simp [scanSells, h1, h2, h3]] at hm
      exact ih buy m hm
    by_cases h4 : s.price ≤ buy.price
    case neg =>
      rw [show (scanSells buy (s :: rest)).2.2 = (scanSells buy rest).2.2 from by
        simp [scanSells, h1, h2, h3, h4]] at hm
      exact ih buy m hm
    by_cases h5 : 0 < min buy.size s.size
    case neg =>
      rw [show (scanSells buy (s :: rest)).2.2 = (scanSells buy rest).2.2 from by
        simp [scanSells, h1, h2, h3, h4, h5]] at hm
      exact ih buy m hm
    by_cases hbr : buy.size - min buy.size s.size = 0
    · rw [show (scanSells buy (s :: rest)).2.2 =
          [⟨buy.orderId, s.orderId, buy.owner, s.owner, min buy.size s.size,
            s.price, buy.token, s.token⟩] from by
        simp [scanSells, h1, h2, h3, h4, h5, hbr]] at hm
      simp at hm
      subst hm
      exact h3
    · rw [show (scanSells buy (s :: rest)).2.2 =
          (⟨buy.orderId, s.orderId, buy.owner, s.owner, min buy.size s.size,
            s.price, buy.token, s.token⟩ : MEMatch) ::
            (scanSells { buy with size := buy.size - min buy.size s.size } rest).2.2 from by
        simp [scanSells, h1, h2, h3, h4, h5, hbr]] at hm
      rcases List.mem_cons.mp hm with rfl | hm'
      · exact h3
      · exact ih _ m hm'

/-- The self-trade guard of `MatchingEngine.find_matches`, with no side
assumptions (outer loop). -/
theorem scanBuys_owner_ne :
    ∀ (buys sells : List Order) (m : MEMatch),
      m ∈ (scanBuys buys sells).2 →
      lowerStr m.buyerAddress ≠ lowerStr m.sellerAddress := by
  intro buys
  induction buys with
  | nil => intro sells m hm; exact absurd hm (by simp [scanBuys])
  | cons b bs ih =>
    intro sells m hm
    by_cases hsz : b.size ≤ 0
    · rw [show (scanBuys (b :: bs) sells).2 = (scanBuys bs sells).2 from by
        simp [scanBuys, hsz]] at hm
      exact ih sells m hm
    · rw [show (scanBuys (b :: bs) sells).2 =
          (scanSells b sells).2.2 ++ (scanBuys bs (scanSells b sells).1).2 from by
        simp [scanBuys, hsz]] at hm
      rcases List.mem_append.mp hm with hm' | hm'
      · exact scanSells_owner_ne sells b m hm'
      · exact ih _ m hm'

/-- The self-trade guard of `MatchingEngine.find_matches`: every emitted
match has case-insensitively distinct buyer and seller addresses. -/
theorem findMatches_owner_ne (buys sells : List Order) (m : MEMatch)
    (hm : m ∈ findMatches buys sells) :
    lowerStr m.buyerAddress ≠ lowerStr m.sellerAddress := by
  unfold findMatches at hm
  by_cases hemp : buys.isEmpty || sells.isEmpty
  · rw [if_pos hemp] at hm; exact absurd hm (by simp)
  · rw [if_neg hemp] at hm
    exact scanBuys_owner_ne _ _ m hm

end ME

namespace V5

/-- The case-insensitive self-trade guard of
`MatchingEngineV5.find_matches` (inner loop). -/
theorem v5ScanSells_owner_ne :
    ∀ (sells : List Order) (buy : Order) (m : V5Match),
      m ∈ (scanSells buy sells).2.2 →
      lowerStr m.buyOwner ≠ lowerStr m.sellOwner := by
  intro sells
  induction sells with
  | nil => intro buy m hm; exact absurd hm (by simp [scanSells])
  | cons s rest ih =>
    intro buy m hm
    by_cases h1 : s.size ≤ 0
    · rw [show (scanSells buy (s :: rest)).2.2 = (scanSells buy rest).2.2 from by
        simp [scanSells, h1]] at hm
      exact ih buy m hm
    by_cases h2 : s.price ≤ buy.price
    case neg =>
      rw [show (scanSells buy (s :: rest)).2.2 = (scanSells buy rest).2.2 from by
        simp [scanSells, h1, h2]] at hm
      exact ih buy m hm
    by_cases h3 : buy.token = s.token
    case neg =>
      rw [show (scanSells buy (s :: rest)).2.2 = (scanSells buy rest).2.2 from by
        simp [scanSells, h1, h2, h3]] at hm
      exact ih buy m hm
    by_cases h4 : lowerStr buy.owner ≠ lowerStr s.owner
    case neg =>
      rw [show (scanSells buy (s :: rest)).2.2 = (scanSells buy rest).2.2 from by
        simp [scanSells, h1, h2, h3, h4]] at hm
      exact ih buy m hm
    by_cases hbr : buy.size - min buy.size s.size ≤ 0
    · rw [show (scanSells buy (s :: rest)).2.2 =
          [⟨buy.orderId, s.orderId, buy.token, s.price, min buy.size s.size,
            buy.owner, s.owner⟩] from by
        simp [scanSells, h1, h2, h3, h4, hbr]] at hm
      simp at hm
      subst hm
      exact h4
    · rw [show (scanSells buy (s :: rest)).2.2 =
          (⟨buy.orderId, s.orderId, buy.token, s.price, min buy.size s.size,
            buy.owner, s.owner⟩ : V5Match) ::
            (scanSells { buy with size := buy.size - min buy.size s.size } rest).2.2 from by
        simp [scanSells, h1, h2, h3, h4, hbr]] at hm
      rcases List.mem_cons.mp hm with rfl | hm'
      · exact h4
      · exact ih _ m hm'

/-- The case-insensitive self-trade guard of
`MatchingEngineV5.find_matches` (outer loop). -/
theorem v5ScanBuys_owner_ne :
    ∀ (buys sells : List Order) (m : V5Match),
      m ∈ (scanBuys buys sells).2 →
      lowerStr m.buyOwner ≠ lowerStr m.sellOwner := by
  intro buys
  induction buys with
  | nil => intro sells m hm; exact absurd hm (by simp [scanBuys])
  | cons b bs ih =>
    intro sells m hm
    by_cases hsz : b.size ≤ 0
    · rw [show (scanBuys (b :: bs) sells).2 = (scanBuys bs sells).2 from by
        simp [scanBuys, hsz]] at hm
      exact ih sells m hm
    · rw [show (scanBuys (b :: bs) sells).2 =
          (scanSells b sells).2.2 ++ (scanBuys bs (scanSells b sells).1).2 from by
        simp [scanBuys, hsz]] at hm
      rcases List.mem_append.mp hm with hm' | hm'
      · exact v5ScanSells_owner_ne sells b m hm'
      · exact ih _ m hm'

/-- The case-insensitive self-trade guard of
`MatchingEngineV5.find_matches`. -/
theorem v5FindMatches_owner_ne (buys sells : List Order) (m : V5Match)
    (hm : m ∈ findMatches buys sells) :
    lowerStr m.buyOwner ≠ lowerStr m.sellOwner := by
  unfold findMatches at hm
  by_cases hemp : buys.isEmpty || sells.isEmpty
  · rw [if_pos hemp] at hm; exact absurd hm (by simp)
  · rw [if_neg hemp] at hm
    exact v5ScanBuys_owner_ne _ _ m hm

end V5

namespace OM

theorem sumQ_nil : sumQ [] = 0 := rfl

theorem sumQ_cons (m : OMMatch) (l : List OMMatch) :
    sumQ (m :: l) = m.quantity + sumQ l := by
  simp [sumQ]

theorem fillSQ_nil (oid : Nat) : fillSQ oid [] = 0 := rfl

theorem fillSQ_cons (oid : Nat) (m : OMMatch) (l : List OMMatch) :
    fillSQ oid (m :: l) =
      (if m.sellOrder.orderId = oid then m.quantity else 0) + fillSQ oid l := by
  by_cases h : m.sellOrder.orderId = oid <;>
    simp [fillSQ, List.filter_cons, h, sumQ_cons]

theorem fillSQ_append (oid : Nat) (l1 l2 : List OMMatch) :
    fillSQ oid (l1 ++ l2) = fillSQ oid l1 + fillSQ oid l2 := by
  simp [fillSQ, List.filter_append, sumQ, List.map_append]

theorem fillBQ_nil (oid : Nat) : fillBQ oid [] = 0 := rfl

theorem fillBQ_cons (oid : Nat) (m : OMMatch) (l : List OMMatch) :
    fillBQ oid (m :: l) =
      (if m.buyOrder.orderId = oid then m.quantity else 0) + fillBQ oid l := by
  by_cases h : m.buyOrder.orderId = oid <;>
    simp [fillBQ, List.filter_cons, h, sumQ_cons]

theorem fillBQ_append (oid : Nat) (l1 l2 : List OMMatch) :
    fillBQ oid (l1 ++ l2) = fillBQ oid l1 + fillBQ oid l2 := by
  simp [fillBQ, List.filter_append, sumQ, List.map_append]

theorem fillSQ_eq_zero {oid : Nat} {ms : List OMMatch}
    (h : ∀ m ∈ ms, m.sellOrder.orderId ≠ oid) : fillSQ oid ms = 0 := by
  induction ms with
  | nil => rfl
  | cons m l ih =>
    rw [fillSQ_cons, if_neg (h m (List.mem_cons_self m l)),
      ih (fun m' hm' => h m' (List.mem_cons_of_mem m hm'))]
    ring

theorem fillBQ_eq_zero {oid : Nat} {ms : List OMMatch}
    (h : ∀ m ∈ ms, m.buyOrder.orderId ≠ oid) : fillBQ oid ms = 0 := by
  induction ms with
  | nil => rfl
  | cons m l ih =>
    rw [fillBQ_cons, if_neg (h m (List.mem_cons_self m l)),
      ih (fun m' hm' => h m' (List.mem_cons_of_mem m hm'))]
    ring

theorem fillBQ_all {oid : Nat} {ms : List OMMatch}
    (h : ∀ m ∈ ms, m.buyOrder.orderId = oid) : fillBQ oid ms = sumQ ms := by
  induction ms with
  | nil => rfl
  | cons m l ih =>
    rw [fillBQ_cons, if_pos (h m (List.mem_cons_self m l)),
      ih (fun m' hm' => h m' (List.mem_cons_of_mem m hm')), sumQ_cons]

theorem omCoreEq_self (a : OMOrder) : OMCoreEq a a := ⟨rfl, rfl, rfl, rfl, rfl⟩

/-- A skipped sell at the head of the book passes the spec through. -/
theorem omScanSpec_skip {buy s : OMOrder} {rest : List OMOrder}
    {res : List OMOrder × OMOrder × List OMMatch}
    (hs : s.orderId ∉ rest.map OMOrder.orderId)
    (h : ScanSpec buy rest res) :
    ScanSpec buy (s :: rest) (s :: res.1, res.2.1, res.2.2) := by
  have hzero : fillSQ s.orderId res.2.2 = 0 :=
    fillSQ_eq_zero (fun m hm hcontra => hs (hcontra ▸ (h.memb m hm).2))
  refine ⟨by simp [h.len], ?_, h.buyCore, h.buySize, h.buyNonneg, ?_, ?_⟩
  · intro j hj hj2
    match j with
    | 0 => simpa using ⟨omCoreEq_self s, by simp [hzero]⟩
    | j + 1 =>
      have hj' : j < rest.length := by simpa using hj
      have hj2' : j < res.1.length := by simpa using hj2
      simpa using h.rel j hj' hj2'
  · intro m hm
    exact ⟨(h.memb m hm).1, by simp [(h.memb m hm).2]⟩
  · intro pre m post hsplit
    obtain ⟨h1, h2, h3, h4, h5, h6, j, hj, hrest⟩ := h.emit pre m post hsplit
    exact ⟨h1, h2, h3, h4, h5, h6, j + 1, by simpa using hj, by simpa using hrest⟩

/-- Master lemma for the inner loop of the oracle-matching
`find_matches`. -/
theorem omScanSells_spec :
    ∀ (sells : List OMOrder) (buy : OMOrder),
      (sells.map OMOrder.orderId).Nodup →
      ScanSpec buy sells (scanSells buy sells) := by
  intro sells
  induction sells with
  | nil =>
    intro buy _
    refine ⟨rfl, ?_, omCoreEq_self buy, ?_, ?_, ?_, ?_⟩
    · intro j hj _; exact absurd hj (by simp [scanSells])
    · simp [scanSells, sumQ_nil]
    · intro h; simpa [scanSells] using h
    · intro m hm; exact absurd hm (by simp [scanSells])
    · intro pre m post hsplit
      exact absurd (congrArg List.length hsplit) (by simp [scanSells]; omega)
  | cons s rest ih =>
    intro buy hnd
    rw [List.map_cons, List.nodup_cons] at hnd
    have hnd' : (rest.map OMOrder.orderId).Nodup := hnd.2
    have hsid : s.orderId ∉ rest.map OMOrder.orderId := hnd.1
    have hne : ∀ j (hj : j < rest.length), rest[j].orderId ≠ s.orderId := by
      intro j hj h
      exact hsid (h ▸ List.mem_map_of_mem OMOrder.orderId (rest.getElem_mem hj))
    by_cases h1 : buy.token ≠ s.token
    · have heq : scanSells buy (s :: rest) =
          (s :: (scanSells buy rest).1, (scanSells buy rest).2.1,
            (scanSells buy rest).2.2) := by
        simp [scanSells, h1]
      rw [heq]
      exact omScanSpec_skip hsid (ih buy hnd')
    by_cases h2 : buy.price < s.price
    · have heq : scanSells buy (s :: rest) =
          (s :: (scanSells buy rest).1, (scanSells buy rest).2.1,
            (scanSells buy rest).2.2) := by
        simp [scanSells, h1, h2]
      rw [heq]
      exact omScanSpec_skip hsid (ih buy hnd')
    by_cases h3 : buy.owner = s.owner
    · have heq : scanSells buy (s :: rest) =
          (s :: (scanSells buy rest).1, (scanSells buy rest).2.1,
            (scanSells buy rest).2.2) := by
        simp [scanSells, h1, h2, h3]
      rw [heq]
      exact omScanSpec_skip hsid (ih buy hnd')
    by_cases h5 : 0 < min buy.amount s.amount
    case neg =>
      have heq : scanSells buy (s :: rest) =
          (s :: (scanSells buy rest).1, (scanSells buy rest).2.1,
            (scanSells buy rest).2.2) := by
        simp [scanSells, h1, h2, h3, h5]
      rw [heq]
      exact omScanSpec_skip hsid (ih buy hnd')
    have hamtb : min buy.amount s.amount ≤ buy.amount := min_le_left _ _
    have hamts : min buy.amount s.amount ≤ s.amount := min_le_right _ _
    have htok : buy.token = s.token := not_not.mp h1
    have hpr : s.price ≤ buy.price := not_lt.mp h2
    by_cases hbr : buy.amount - min buy.amount s.amount = 0
    · have heq : scanSells buy (s :: rest) =
          ({ s with amount := s.amount - min buy.amount s.amount } :: rest,
            { buy with amount := buy.amount - min buy.amount s.amount },
            [⟨buy, s, min buy.amount s.amount⟩]) := by
        simp [scanSells, h1, h2, h3, h5, hbr]
      rw [heq]
      refine ⟨by simp, ?_, omCoreEq_self _, ?_, ?_, ?_, ?_⟩
      · intro j hj hj2
        match j with
        | 0 =>
          refine ⟨⟨rfl, rfl, rfl, rfl, rfl⟩, ?_, ?_⟩
          · simp [fillSQ_cons, fillSQ_nil]
          · intro h0
            simpa using Int.sub_nonneg.mpr hamts
        | j + 1 =>
          have hj' : j < rest.length := by simpa using hj
          refine ⟨by simpa using omCoreEq_self rest[j], ?_, by intro h0; simpa using h0⟩
          have : fillSQ rest[j].orderId
              [(⟨buy, s, min buy.amount s.amount⟩ : OMMatch)] = 0 := by
            rw [fillSQ_cons, if_neg (by simpa using (hne j hj').symm), fillSQ_nil]
            ring
          simp [this]
      · simp [sumQ_cons, sumQ_nil]
      · intro _; simp [hbr]
      · intro m hm
        simp at hm
        subst hm
        exact ⟨rfl, by simp⟩
      · intro pre m post hsplit
        have hlen := congrArg List.length hsplit
        simp at hlen
        have hpre : pre = [] := by
          cases pre with
          | nil => rfl
          | cons a b => simp at hlen; omega
        subst hpre
        simp at hsplit
        obtain ⟨rfl, -⟩ := hsplit
        refine ⟨h5, rfl, rfl, rfl, rfl, by simpa [sumQ_nil] using hamtb,
          0, by simp, rfl, rfl, rfl, rfl, htok, hpr, h3, ?_⟩
        simpa [fillSQ_nil] using hamts
    · have heq : scanSells buy (s :: rest) =
          ({ s with amount := s.amount - min buy.amount s.amount } ::
              (scanSells { buy with amount := buy.amount - min buy.amount s.amount } rest).1,
            (scanSells { buy with amount := buy.amount - min buy.amount s.amount } rest).2.1,
            (⟨buy, s, min buy.amount s.amount⟩ : OMMatch) ::
              (scanSells { buy with amount := buy.amount - min buy.amount s.amount } rest).2.2) := by
        simp [scanSells, h1, h2, h3, h5, hbr]
      rw [heq]
      set buy2 : OMOrder := { buy with amount := buy.amount - min buy.amount s.amount } with hbuy2
      have hspec := ih buy2 hnd'
      have hms0 : fillSQ s.orderId (scanSells buy2 rest).2.2 = 0 :=
        fillSQ_eq_zero (fun m hm hcontra => hsid (hcontra ▸ (hspec.memb m hm).2))
      refine ⟨by simp [hspec.len], ?_, ?_, ?_, ?_, ?_, ?_⟩
      · intro j hj hj2
        match j with
        | 0 =>
          refine ⟨⟨rfl, rfl, rfl, rfl, rfl⟩, ?_, ?_⟩
          · simp [fillSQ_cons, hms0]
          · intro h0
            simpa using Int.sub_nonneg.mpr hamts
        | j + 1 =>
          have hj' : j < rest.length := by simpa using hj
          have hj2' : j < (scanSells buy2 rest).1.length := by simpa using hj2
          obtain ⟨hcore, hsize, hpos⟩ := hspec.rel j hj' hj2'
          refine ⟨by simpa using hcore, ?_, by intro h0; simpa using hpos (by simpa using h0)⟩
          have : fillSQ rest[j].orderId
              ((⟨buy, s, min buy.amount s.amount⟩ : OMMatch) ::
                (scanSells buy2 rest).2.2) =
              fillSQ rest[j].orderId (scanSells buy2 rest).2.2 := by
            rw [fillSQ_cons, if_neg (by simpa using (hne j hj').symm)]
            ring
          simpa [this] using hsize
      · obtain ⟨ha, hb, hc, hd, he⟩ := hspec.buyCore
        exact ⟨ha, hb, hc, hd, he⟩
      · have := hspec.buySize
        rw [this]
        simp [hbuy2, sumQ_cons]
        ring
      · intro _
        exact hspec.buyNonneg (by simpa [hbuy2] using Int.sub_nonneg.mpr hamtb)
      · intro m hm
        rcases List.mem_cons.mp hm with rfl | hm'
        · exact ⟨rfl, by simp⟩
        · exact ⟨(hspec.memb m hm').1, by simp [(hspec.memb m hm').2]⟩
      · intro pre m post hsplit
        cases pre with
        | nil =>
          simp at hsplit
          obtain ⟨rfl, -⟩ := hsplit
          refine ⟨h5, rfl, rfl, rfl, rfl, by simpa [sumQ_nil] using hamtb,
            0, by simp, rfl, rfl, rfl, rfl, htok, hpr, h3, ?_⟩
          simpa [fillSQ_nil] using hamts
        | cons hd tl =>
          simp at hsplit
          obtain ⟨rfl, htl⟩ := hsplit
          obtain ⟨g1, g2, g3, g4, g5, g6, j, hj, gs1, gs2, gs3, gs4, gs5, gs6, gs7, gs8⟩ :=
            hspec.emit tl m post htl
          refine ⟨g1, g2, g3, g4, g5, ?_, j + 1, by simpa using hj, by simpa using gs1,
            by simpa using gs2, by simpa using gs3, by simpa using gs4,
            by simpa using gs5, by simpa using gs6, by simpa using gs7, ?_⟩
          · have hb2 : buy2.amount = buy.amount - min buy.amount s.amount := rfl
            have g6' : m.quantity ≤ buy.amount - min buy.amount s.amount - sumQ tl := by
              rw [hb2] at g6; exact g6
            rw [sumQ_cons]
            have hq : (⟨buy, s, min buy.amount s.amount⟩ : OMMatch).quantity =
                min buy.amount s.amount := rfl
            rw [hq]
            omega
          · have hj' : j < rest.length := hj
            have : fillSQ rest[j].orderId
                ((⟨buy, s, min buy.amount s.amount⟩ : OMMatch) :: tl) =
                fillSQ rest[j].orderId tl := by
              rw [fillSQ_cons, if_neg (by simpa using (hne j hj').symm)]
              ring
            simpa [this] using gs8

/-- The ids of the updated sell book coincide with the original ones. -/
theorem omScanSpec_idsEq {buy : OMOrder} {sells : List OMOrder}
    {res : List OMOrder × OMOrder × List OMMatch} (h : ScanSpec buy sells res) :
    res.1.map OMOrder.orderId = sells.map OMOrder.orderId := by
  apply List.ext_getElem (by simp [h.len])
  intro j h1 h2
  simp only [List.getElem_map]
  exact ((h.rel j (by simpa using h2) (by simpa using h1)).1).1

/-- Master lemma for the outer loop of the oracle-matching
`find_matches`. -/
theorem omScanBuys_spec :
    ∀ (buys sells : List OMOrder),
      (buys.map OMOrder.orderId).Nodup → (sells.map OMOrder.orderId).Nodup →
      ScanBSpec buys sells (scanBuys buys sells) := by
  intro buys
  induction buys with
  | nil =>
    intro sells _ _
    refine ⟨rfl, ?_, ?_, ?_⟩
    · intro j hj hj2
      exact ⟨omCoreEq_self _, by simp [scanBuys, fillSQ_nil],
        fun h => by simpa [scanBuys] using h⟩
    · intro m hm; exact absurd hm (by simp [scanBuys])
    · intro pre m post hsplit
      exact absurd (congrArg List.length hsplit) (by simp [scanBuys]; omega)
  | cons b bs ih =>
    intro sells hb hs
    rw [List.map_cons, List.nodup_cons] at hb
    have hbid : b.orderId ∉ bs.map OMOrder.orderId := hb.1
    have hb' : (bs.map OMOrder.orderId).Nodup := hb.2
    have heq : scanBuys (b :: bs) sells =
        ((scanBuys bs (scanSells b sells).1).1,
          (scanSells b sells).2.2 ++ (scanBuys bs (scanSells b sells).1).2) := by
      simp [scanBuys]
    rw [heq]
    have hspec := omScanSells_spec sells b hs
    have hs1 : ((scanSells b sells).1.map OMOrder.orderId).Nodup := by
      rw [omScanSpec_idsEq hspec]; exact hs
    have hspec2 := ih (scanSells b sells).1 hb' hs1
    have hbatch : ∀ m ∈ (scanSells b sells).2.2, m.buyOrder.orderId = b.orderId :=
      fun m hm => (hspec.memb m hm).1
    refine ⟨?_, ?_, ?_, ?_⟩
    · rw [hspec2.len, hspec.len]
    · intro j hj hj2
      have hj1 : j < (scanSells b sells).1.length := by rw [hspec.len]; exact hj
      have hj2' : j < (scanBuys bs (scanSells b sells).1).1.length := hj2
      obtain ⟨c1, s1, p1⟩ := hspec.rel j hj hj1
      obtain ⟨c2, s2, p2⟩ := hspec2.rel j hj1 hj2'
      have hid : (scanSells b sells).1[j].orderId = sells[j].orderId := c1.1
      refine ⟨⟨by rw [c2.1, c1.1], by rw [c2.2.1, c1.2.1], by rw [c2.2.2.1, c1.2.2.1],
        by rw [c2.2.2.2.1, c1.2.2.2.1], by rw [c2.2.2.2.2, c1.2.2.2.2]⟩, ?_,
        fun h0 => p2 (p1 h0)⟩
      rw [s2, hid, s1, fillSQ_append]
      ring
    · intro m hm
      rcases List.mem_append.mp hm with hm' | hm'
      · exact ⟨by simp [(hspec.memb m hm').1], (hspec.memb m hm').2⟩
      · refine ⟨by simp [(hspec2.memb m hm').1], ?_⟩
        have := (hspec2.memb m hm').2
        rwa [omScanSpec_idsEq hspec] at this
    · intro pre m post hsplit
      rcases List.append_eq_append_iff.mp hsplit.symm with ⟨a2, ha1, ha2⟩ | ⟨c2, hc1, hc2⟩
      · cases a2 with
        | nil =>
          have hpre : (scanSells b sells).2.2 = pre := by simpa using ha1
          have hrec : (scanBuys bs (scanSells b sells).1).2 = [] ++ m :: post := by
            simpa using ha2.symm
          obtain ⟨h1, b', hmemb, g1, g2, g3, g4, g5, s', hmems, t1, t2, t3, t4, t5, t6, t7, t8⟩ :=
            hspec2.emit [] m post hrec
          refine ⟨h1, b', List.mem_cons_of_mem b hmemb, g1, g2, g3, g4, ?_, ?_⟩
          · have hne : b.orderId ≠ b'.orderId := by
              intro hc
              exact hbid (hc ▸ List.mem_map_of_mem OMOrder.orderId hmemb)
            have hz : fillBQ b'.orderId (scanSells b sells).2.2 = 0 :=
              fillBQ_eq_zero (fun m' hm' hc => hne (by rw [← hc, hbatch m' hm']))
            rw [← hpre, hz]
            simpa [fillBQ_nil] using g5
          · obtain ⟨j, hj1, hsj⟩ := List.getElem_of_mem hmems
            have hj : j < sells.length := by rw [← hspec.len]; exact hj1
            obtain ⟨c1, s1, p1⟩ := hspec.rel j hj hj1
            refine ⟨sells[j], sells.getElem_mem hj, ?_, ?_, ?_, ?_, ?_, ?_, ?_, ?_⟩
            · rw [t1, ← hsj, c1.1]
            · rw [t2, ← hsj, c1.2.1]
            · rw [t3, ← hsj, c1.2.2.1]
            · rw [t4, ← hsj, c1.2.2.2.1]
            · rw [t5, ← hsj, c1.2.2.1]
            · calc sells[j].price = s'.price := by rw [← hsj, c1.2.2.2.1]
                _ ≤ b'.price := t6
            · rw [show sells[j].owner = s'.owner from by rw [← hsj, c1.2.1]]
              exact t7
            · have hsize : s'.amount =
                  sells[j].amount - fillSQ sells[j].orderId (scanSells b sells).2.2 := by
                rw [← hsj]; exact s1
              have hids : s'.orderId = sells[j].orderId := by rw [← hsj, c1.1]
              rw [← hpre]
              rw [hsize, hids] at t8
              simp [fillSQ_nil] at t8
              omega
        | cons mhd a2' =>
          have hc2' : m = mhd ∧ post = a2' ++ (scanBuys bs (scanSells b sells).1).2 := by
            simpa using ha2
          obtain ⟨rfl, -⟩ := hc2'
          have hinner : (scanSells b sells).2.2 = pre ++ m :: a2' := ha1
          obtain ⟨h1, g1, g2, g3, g4, g5, j, hj, t1, t2, t3, t4, t5, t6, t7, t8⟩ :=
            hspec.emit pre m a2' hinner
          have hpreb : ∀ m' ∈ pre, m'.buyOrder.orderId = b.orderId := by
            intro m' hm'
            exact hbatch m' (by rw [hinner]; exact List.mem_append_left _ hm')
          refine ⟨h1, b, List.mem_cons_self b bs, g1, g2, g3, g4, ?_, ?_⟩
          · rw [fillBQ_all hpreb]
            exact g5
          · exact ⟨sells[j], sells.getElem_mem hj, t1, t2, t3, t4, t5, t6, t7, t8⟩
      · obtain ⟨h1, b', hmemb, g1, g2, g3, g4, g5, s', hmems, t1, t2, t3, t4, t5, t6, t7, t8⟩ :=
          hspec2.emit c2 m post hc2
        refine ⟨h1, b', List.mem_cons_of_mem b hmemb, g1, g2, g3, g4, ?_, ?_⟩
        · have hne : b.orderId ≠ b'.orderId := by
            intro hc
            exact hbid (hc ▸ List.mem_map_of_mem OMOrder.orderId hmemb)
          have hz : fillBQ b'.orderId (scanSells b sells).2.2 = 0 :=
            fillBQ_eq_zero (fun m' hm' hc => hne (by rw [← hc, hbatch m' hm']))
          rw [hc1, fillBQ_append, hz]
          omega
        · obtain ⟨j, hj1, hsj⟩ := List.getElem_of_mem hmems
          have hj : j < sells.length := by rw [← hspec.len]; exact hj1
          obtain ⟨c1, s1, p1⟩ := hspec.rel j hj hj1
          refine ⟨sells[j], sells.getElem_mem hj, ?_, ?_, ?_, ?_, ?_, ?_, ?_, ?_⟩
          · rw [t1, ← hsj, c1.1]
          · rw [t2, ← hsj, c1.2.1]
          · rw [t3, ← hsj, c1.2.2.1]
          · rw [t4, ← hsj, c1.2.2.2.1]
          · rw [t5, ← hsj, c1.2.2.1]
          · calc sells[j].price = s'.price := by rw [← hsj, c1.2.2.2.1]
              _ ≤ b'.price := t6
          · rw [show sells[j].owner = s'.owner from by rw [← hsj, c1.2.1]]
            exact t7
          · have hsize : s'.amount =
                sells[j].amount - fillSQ sells[j].orderId (scanSells b sells).2.2 := by
              rw [← hsj]; exact s1
            have hids : s'.orderId = sells[j].orderId := by rw [← hsj, c1.1]
            rw [hc1, fillSQ_append]
            rw [hsize, hids] at t8
            omega

/-- `OMMatchOut` transfers along permutations of the books. -/
theorem OMMatchOut_perm {buys1 buys2 sells1 sells2 : List OMOrder}
    {pre : List OMMatch} {m : OMMatch}
    (hbp : buys1.Perm buys2) (hsp : sells1.Perm sells2)
    (h : OMMatchOut buys1 sells1 pre m) : OMMatchOut buys2 sells2 pre m := by
  obtain ⟨h1, b, hmb, g1, g2, g3, g4, g5, s, hms, hrest⟩ := h
  exact ⟨h1, b, hbp.mem_iff.mp hmb, g1, g2, g3, g4, g5, s, hsp.mem_iff.mp hms, hrest⟩

/-- Matches of the oracle-matching `find_matches`, with the crossing
facts relative to the original input order list. -/
theorem omFindMatches_emit (orders : List OMOrder)
    (hnd : (orders.map OMOrder.orderId).Nodup) :
    ∀ pre m post, findMatches orders = pre ++ m :: post →
      OMMatchOut (orders.filter (fun o => o.isBuyOrder))
        (orders.filter (fun o => !o.isBuyOrder)) pre m := by
  intro pre m post hsplit
  unfold findMatches at hsplit
  have hbn : ((orders.filter (fun o => o.isBuyOrder)).map OMOrder.orderId).Nodup :=
    List.Nodup.sublist
      ((List.filter_sublist orders).map OMOrder.orderId) hnd
  have hsn : ((orders.filter (fun o => !o.isBuyOrder)).map OMOrder.orderId).Nodup :=
    List.Nodup.sublist
      ((List.filter_sublist orders).map OMOrder.orderId) hnd
  have hpb := List.mergeSort_perm (orders.filter (fun o => o.isBuyOrder))
    (fun a b => decide (b.price ≤ a.price))
  have hps := List.mergeSort_perm (orders.filter (fun o => !o.isBuyOrder))
    (fun a b => decide (a.price ≤ b.price))
  have hb' := ((hpb.map OMOrder.orderId).nodup_iff).mpr hbn
  have hs' := ((hps.map OMOrder.orderId).nodup_iff).mpr hsn
  have hspec := omScanBuys_spec _ _ hb' hs'
  exact OMMatchOut_perm hpb hps (hspec.emit pre m post hsplit)

end OM

namespace RA

theorem fillBR_eq_zero {oid : Nat} {ms : List RAMatch}
    (h : ∀ m ∈ ms, m.buyOrder.orderId ≠ oid) : fillBR oid ms = 0 := by
  unfold fillBR
  rw [List.filter_eq_nil_iff.mpr (fun m hm => by simp [h m hm])]
  rfl

theorem fillSR_eq_zero {oid : Nat} {ms : List RAMatch}
    (h : ∀ m ∈ ms, m.sellOrder.orderId ≠ oid) : fillSR oid ms = 0 := by
  unfold fillSR
  rw [List.filter_eq_nil_iff.mpr (fun m hm => by simp [h m hm])]
  rfl

theorem innerStep_inv {orders : List Order} {b : Order} {acc : List RAMatch}
    (hb : b ∈ orders) (hbuy : b.isBuy = true) {s : Order}
    (hs : s ∈ orders) (hsell : s.isBuy = false)
    (hacc : RAInv orders acc) : RAInv orders (innerStep b acc s) := by
  unfold innerStep
  by_cases h1 : b.token ≠ s.token
  · rw [if_pos h1]; exact hacc
  rw [if_neg h1]
  by_cases h2 : b.price < s.price
  · rw [if_pos h2]; exact hacc
  rw [if_neg h2]
  by_cases h3 : acc.any (fun m =>
      m.buyOrder.orderId == b.orderId || m.sellOrder.orderId == s.orderId)
  · rw [if_pos h3]; exact hacc
  rw [if_neg h3]
  have hnone : ∀ m ∈ acc,
      m.buyOrder.orderId ≠ b.orderId ∧ m.sellOrder.orderId ≠ s.orderId := by
    intro m hm
    constructor
    · intro hc
      exact h3 (List.any_eq_true.mpr ⟨m, hm, by simp [hc]⟩)
    · intro hc
      exact h3 (List.any_eq_true.mpr ⟨m, hm, by simp [hc]⟩)
  have hgood : RAGood orders acc ⟨b, s, min b.size s.size⟩ := by
    refine ⟨hb, hbuy, hs, hsell, not_not.mp h1, not_lt.mp h2, rfl, ?_, ?_⟩
    · exact fillBR_eq_zero (fun m' hm' => (hnone m' hm').1)
    · exact fillSR_eq_zero (fun m' hm' => (hnone m' hm').2)
  intro pre m post hsplit
  rcases List.append_eq_append_iff.mp hsplit.symm with ⟨a2, ha1, ha2⟩ | ⟨c2, hc1, hc2⟩
  · cases a2 with
    | nil =>
      have hpre : acc = pre := by simpa using ha1
      rw [List.nil_append] at ha2
      have hm' : m = ⟨b, s, min b.size s.size⟩ := (List.cons_eq_cons.mp ha2).1
      subst hm'
      exact hpre.symm ▸ hgood
    | cons mhd a2' =>
      have hme : m = mhd ∧ post = a2' ++ [(⟨b, s, min b.size s.size⟩ : RAMatch)] := by
        simpa using ha2
      obtain ⟨rfl, -⟩ := hme
      exact hacc pre m a2' ha1
  · cases c2 with
    | nil =>
      have hpre : pre = acc := by simpa using hc1
      rw [List.nil_append] at hc2
      have hm' : m = ⟨b, s, min b.size s.size⟩ := ((List.cons_eq_cons.mp hc2).1).symm
      subst hm'
      exact hpre ▸ hgood
    | cons mh c2' =>
      rw [List.cons_append] at hc2
      exact absurd ((List.cons_eq_cons.mp hc2).2).symm (by simp)

theorem innerFold_inv {orders : List Order} {b : Order}
    (hb : b ∈ orders) (hbuy : b.isBuy = true) :
    ∀ (sl : List Order) (acc : List RAMatch),
      (∀ s ∈ sl, s ∈ orders ∧ s.isBuy = false) →
      RAInv orders acc → RAInv orders (sl.foldl (innerStep b) acc) := by
  intro sl
  induction sl with
  | nil => intro acc _ hacc; exact hacc
  | cons s rest ih =>
    intro acc hsl hacc
    have hsmem := hsl s (List.mem_cons_self s rest)
    exact ih (innerStep b acc s)
      (fun s' hs' => hsl s' (List.mem_cons_of_mem s hs'))
      (innerStep_inv hb hbuy hsmem.1 hsmem.2 hacc)

theorem outerFold_inv {orders : List Order} (sl : List Order)
    (hsl : ∀ s ∈ sl, s ∈ orders ∧ s.isBuy = false) :
    ∀ (bl : List Order) (acc : List RAMatch),
      (∀ b ∈ bl, b ∈ orders ∧ b.isBuy = true) →
      RAInv orders acc →
      RAInv orders (bl.foldl (fun acc b => sl.foldl (innerStep b) acc) acc) := by
  intro bl
  induction bl with
  | nil => intro acc _ hacc; exact hacc
  | cons b rest ih =>
    intro acc hbl hacc
    have hbm := hbl b (List.mem_cons_self b rest)
    exact ih _ (fun b' hb' => hbl b' (List.mem_cons_of_mem b hb'))
      (innerFold_inv hbm.1 hbm.2 sl acc hsl hacc)

/-- Matches of the roflswapapp `find_matches`: each split of the output
satisfies `RAGood`. -/
theorem raFindMatches_emit (orders : List Order) :
    RAInv orders (findMatches orders) := by
  unfold findMatches
  apply outerFold_inv
  · intro s hs
    have := List.mem_filter.mp hs
    exact ⟨this.1, by simpa using this.2⟩
  · intro b hb
    have := List.mem_filter.mp hb
    exact ⟨this.1, by simpa using this.2⟩
  · intro pre m post hsplit
    exact absurd (congrArg List.length hsplit) (by simp; omega)

end RA

/-- Claim C2 (amended): no Match emitted by
`MatchingEngine.find_matches` has the buyer equal to the seller (the
check is case-insensitive, so even owners differing only in case are
never matched); `ROFLSwapOracle.find_matches`, by contrast, has no
self-trade check at all — see the counterexample. -/
theorem claim_C2_no_self_trade_amended :
    ∀ (buys sells : List Order) (m : MEMatch),
      m ∈ ME.findMatches buys sells →
      m.buyerAddress ≠ m.sellerAddress := by
  intro buys sells m hm hc
  exact ME.findMatches_owner_ne buys sells m hm (congrArg lowerStr hc)

unseal List.merge List.mergeSort in
/-- Claim C2 witness: the first example match has buyer `0xbuyer1` and
seller `0xseller1`, which differ. -/
theorem claim_C2_witness : mEx1.buyerAddress ≠ mEx1.sellerAddress :=
  claim_C2_no_self_trade_amended [bEx] [sEx1, sEx2] mEx1 (by decide)

/-- Claim C2 counterexample: `ROFLSwapOracle.find_matches`
(`roflswap_oracle.py` lines 270-302) emits a match whose buyer and
seller are the same address `0xA`, because that variant never compares
the owners. -/
theorem claim_C2_counterexample :
    ∃ mm ∈ OracleV5.findMatches oracleC2orders,
      mm.buyOrder.owner = mm.sellOrder.owner := by decide

/-- Claim C7: a cycle failure is caught and logged — the polling loop
of `ROFLSwapOracle.log_loop` attempts every cycle regardless of earlier
outcomes and converts an exception into a logged event, and in run-once
mode the exception propagating out of `ROFLSwapOracle.run` is caught by
`main.py`, logged, and turned into `sys.exit(1)` rather than an
uncaught crash. -/
theorem claim_C7_cycle_exception_containment :
    (∀ (cycles : Nat → Sched.CycleOutcome) (n : Nat),
      (Sched.logLoopEvents cycles n).length = n)
    ∧ (∀ (cycles : Nat → Sched.CycleOutcome) (n : Nat) (msg : String),
        cycles n = .err msg →
        Sched.logLoopEvents cycles (n + 1) =
          Sched.logLoopEvents cycles n ++ [.caughtError msg])
    ∧ (∀ (so : Bool) (msg : String),
        Sched.mainGuard (Sched.runOnce so (.err msg)) = .loggedExit 1 msg)
    ∧ (∀ (so : Bool) (f e : Nat),
        Sched.mainGuard (Sched.runOnce so (.ok f e)) = .normal) := by
  refine ⟨?_, ?_, ?_, ?_⟩
  · intro cycles n
    induction n with
    | zero => rfl
    | succ n ih => simp [Sched.logLoopEvents, ih]
  · intro cycles n msg h
    simp [Sched.logLoopEvents, Sched.logLoopStep, h]
  · intro so msg; rfl
  · intro so f e; rfl

/-- Claim C7 witness: a concrete three-cycle run whose middle cycle
raises is still three events long, and a failing run-once cycle ends in
a logged exit with code 1. -/
theorem claim_C7_witness :
    (Sched.logLoopEvents
      (fun n => if n = 1 then .err "boom" else .ok 2 1) 3).length = 3
    ∧ Sched.mainGuard (Sched.runOnce false (.err "boom")) =
        .loggedExit 1 "boom" :=
  ⟨claim_C7_cycle_exception_containment.1 _ 3,
    claim_C7_cycle_exception_containment.2.2.1 false "boom"⟩

/-- Claim C8: the matcher is deterministic — two runs of
`MatchingEngine.find_matches` (and of the oracle-matching
`ROFLSwapMatcher.find_matches`) on equal snapshots of the order books
produce equal match lists. -/
theorem claim_C8_determinism :
    (∀ (b1 b2 s1 s2 : List Order), b1 = b2 → s1 = s2 →
      ME.findMatches b1 s1 = ME.findMatches b2 s2)
    ∧ (∀ (o1 o2 : List OMOrder), o1 = o2 →
      OM.findMatches o1 = OM.findMatches o2) := by
  constructor
  · intro b1 b2 s1 s2 hb hs
    rw [hb, hs]
  · intro o1 o2 h
    rw [h]

/-- Claim C8 witness: determinism at the concrete example book. -/
theorem claim_C8_witness :
    ME.findMatches [bEx] [sEx1, sEx2] = ME.findMatches [bEx] [sEx1, sEx2] :=
  claim_C8_determinism.1 [bEx] [bEx] [sEx1, sEx2] [sEx1, sEx2] rfl rfl

/-- Claim C10: both `MatchingEngine.find_matches` and
`MatchingEngineV5.find_matches` compare owners case-insensitively
(`owner.lower()`), so a buy and a sell whose owner strings differ only
in letter case are treated as the same owner and never matched with
each other. -/
theorem claim_C10_case_insensitive_self_trade :
    (∀ (buys sells : List Order) (b s : Order), b ∈ buys → s ∈ sells →
      lowerStr b.owner = lowerStr s.owner →
      ∀ m ∈ ME.findMatches buys sells,
        ¬(m.buyerAddress = b.owner ∧ m.sellerAddress = s.owner))
    ∧ (∀ (buys sells : List Order) (b s : Order), b ∈ buys → s ∈ sells →
      lowerStr b.owner = lowerStr s.owner →
      ∀ m ∈ V5.findMatches buys sells,
        ¬(m.buyOwner = b.owner ∧ m.sellOwner = s.owner)) := by
  constructor
  · intro buys sells b s _ _ heq m hm ⟨h1, h2⟩
    exact ME.findMatches_owner_ne buys sells m hm (by rw [h1, h2, heq])
  · intro buys sells b s _ _ heq m hm ⟨h1, h2⟩
    exact V5.v5FindMatches_owner_ne buys sells m hm (by rw [h1, h2, heq])

unseal List.merge List.mergeSort in
/-- Claim C10 witness: with buy owner `0xAbC` and sell owner `0xabc`
(case-equal), the emitted match (against the third-party sell `0xB`) is
not between the case-equal pair. -/
theorem claim_C10_witness :
    ¬((⟨1, 3, "0xAbC", "0xB", 2, 95, "T", "T"⟩ : MEMatch).buyerAddress =
        "0xAbC"
      ∧ (⟨1, 3, "0xAbC", "0xB", 2, 95, "T", "T"⟩ : MEMatch).sellerAddress =
        "0xabc") :=
  claim_C10_case_insensitive_self_trade.1 c10buys c10sells
    ⟨1, "0xAbC", "T", 100, 10, true⟩ ⟨2, "0xabc", "T", 90, 3, false⟩
    (by decide) (by decide) (by decide)
    ⟨1, 3, "0xAbC", "0xB", 2, 95, "T", "T"⟩ (by decide)

/-- Claim C1 (amended): crossing correctness holds for
`MatchingEngine.find_matches` and for the oracle-matching
`ROFLSwapMatcher.find_matches` on any book with distinct order ids
(ids are contract-assigned and never reused), and for the roflswapapp
`ROFLSwapMatcher.find_matches` on any book whose orders all have
strictly positive size — the roflswapapp variant has no positive-
quantity guard and can emit a zero-quantity match when a size-0 order
is present (see the counterexample). -/
theorem claim_C1_crossing_correctness_amended :
    (∀ buys sells : List Order,
      ((buys ++ sells).map Order.orderId).Nodup → MECrossingOk buys sells)
    ∧ (∀ orders : List OMOrder,
      (orders.map OMOrder.orderId).Nodup → OMCrossingOk orders)
    ∧ (∀ orders : List Order,
      (∀ o ∈ orders, 0 < o.size) → RACrossingOk orders) := by
  refine ⟨?_, ?_, ?_⟩
  · intro buys sells hnd pre m post hsplit
    rw [List.map_append, List.nodup_append] at hnd
    obtain ⟨h1, b, hmb, g1, g2, g3, g4, g5, s, hms, t1, t2, t3, t4, t5, t6, t7, t8⟩ :=
      ME.findMatches_emit buys sells hnd.1 hnd.2.1 pre m post hsplit
    exact ⟨b, hmb, s, hms, g1, t1, t5, t6, h1, g5, t8⟩
  · intro orders hnd pre m post hsplit
    obtain ⟨h1, b, hmb, g1, g2, g3, g4, g5, s, hms, t1, t2, t3, t4, t5, t6, t7, t8⟩ :=
      OM.omFindMatches_emit orders hnd pre m post hsplit
    have hb := List.mem_filter.mp hmb
    have hs := List.mem_filter.mp hms
    exact ⟨b, hb.1, s, hs.1, by simpa using hb.2, by simpa using hs.2,
      g1, t1, t5, t6, h1, g5, t8⟩
  · intro orders hpos pre m post hsplit
    obtain ⟨hb, hbuy, hs, hsell, htok, hpr, hq, hfb, hfs⟩ :=
      RA.raFindMatches_emit orders pre m post hsplit
    refine ⟨hb, hs, htok, hpr, ?_, ?_, ?_⟩
    · rw [hq]
      exact lt_min (hpos _ hb) (hpos _ hs)
    · rw [hfb, hq]
      simpa using min_le_left m.buyOrder.size m.sellOrder.size
    · rw [hfs, hq]
      simpa using min_le_right m.buyOrder.size m.sellOrder.size

/-- Claim C1 counterexample: on an input containing a size-0 buy order,
the roflswapapp `ROFLSwapMatcher.find_matches` (which never checks that
the computed quantity is positive) emits a match with quantity 0,
contradicting `0 < quantity`. -/
theorem claim_C1_counterexample :
    ∃ m ∈ RA.findMatches raC1orders, ¬(0 < m.quantity) := by decide

unseal List.merge List.mergeSort in
/-- Claim C1 witness: the first match of the spec example book
instantiates the amended theorem. -/
theorem claim_C1_witness :
    ∃ b ∈ [bEx], ∃ s ∈ [sEx1, sEx2],
      mEx1.buyOrderId = b.orderId ∧ mEx1.sellOrderId = s.orderId ∧
      b.token = s.token ∧ s.price ≤ b.price ∧
      0 < mEx1.amount ∧ mEx1.amount ≤ b.size - fillB b.orderId [] ∧
      mEx1.amount ≤ s.size - fillS s.orderId [] :=
  claim_C1_crossing_correctness_amended.1 [bEx] [sEx1, sEx2]
    (by decide) [] mEx1 [mEx2] (by decide)

/-- Claim C3 (amended): every match of `MatchingEngine.find_matches`
carries `price` equal to the referenced sell price (and hence at most
the buy price); `SettlementEngine.execute_matches` submits that match
price unchanged, and the oracle-matching `ROFLSwapMatcher.execute_match`
also submits the sell price — but `ROFLSwapOracle.execute_match` submits
the BUY price as the price argument (see the counterexample). -/
theorem claim_C3_execution_price_amended :
    (∀ buys sells : List Order,
      ((buys ++ sells).map Order.orderId).Nodup →
      ∀ pre m post, ME.findMatches buys sells = pre ++ m :: post →
        ∃ b ∈ buys, ∃ s ∈ sells,
          m.buyOrderId = b.orderId ∧ m.sellOrderId = s.orderId ∧
          m.price = s.price ∧ m.price ≤ b.price)
    ∧ (∀ (b s : OMOrder) (q : Int),
        (OM.executeMatchArgs b s q).2.2.2.2.2.2 = s.price)
    ∧ (∀ m : Settle.SMatch, (settleExecuteMatchArgs m).2.2.2.2.2 = m.price) := by
  refine ⟨?_, ?_, ?_⟩
  · intro buys sells hnd pre m post hsplit
    rw [List.map_append, List.nodup_append] at hnd
    obtain ⟨h1, b, hmb, g1, g2, g3, g4, g5, s, hms, t1, t2, t3, t4, t5, t6, t7, t8⟩ :=
      ME.findMatches_emit buys sells hnd.1 hnd.2.1 pre m post hsplit
    exact ⟨b, hmb, s, hms, g1, t1, t4, by rw [t4]; exact t6⟩
  · intro b s q; rfl
  · intro m; rfl

/-- Claim C3 counterexample: `ROFLSwapOracle.execute_match`
(`roflswap_oracle.py` line 331) builds the `executeMatch` call with the
BUY price (100) as the price argument, not the sell price (90). -/
theorem claim_C3_counterexample :
    (OracleV5.executeMatchArgs ⟨1, "0xA", "T", 100, 5, true⟩
      ⟨2, "0xB", "T", 90, 5, false⟩ 5).2.2.2.2.2.2 = 100
    ∧ (⟨2, "0xB", "T", 90, 5, false⟩ : Order).price = 90
    ∧ (100 : Int) ≠ 90 := by decide

unseal List.merge List.mergeSort in
/-- Claim C3 witness: the first example match carries price 90 — the
sell price — and 90 is at most the buy price 100. -/
theorem claim_C3_witness :
    ∃ b ∈ [bEx], ∃ s ∈ [sEx1, sEx2],
      mEx1.buyOrderId = b.orderId ∧ mEx1.sellOrderId = s.orderId ∧
      mEx1.price = s.price ∧ mEx1.price ≤ b.price :=
  claim_C3_execution_price_amended.1 [bEx] [sEx1, sEx2]
    (by decide) [] mEx1 [mEx2] (by decide)

/-- Claim C4 (amended): conservation holds for
`MatchingEngine.find_matches` — for every order of the input books
(distinct ids, non-negative sizes), the total quantity of all matches
touching it on either side is at most its original size.
`ROFLSwapOracle.find_matches`, which never decrements sizes, violates
conservation (see the counterexample). -/
theorem claim_C4_conservation_amended :
    ∀ buys sells : List Order,
      ((buys ++ sells).map Order.orderId).Nodup →
      (∀ o ∈ buys ++ sells, 0 ≤ o.size) →
      ∀ o ∈ buys ++ sells,
        fillB o.orderId (ME.findMatches buys sells)
          + fillS o.orderId (ME.findMatches buys sells) ≤ o.size := by
  intro buys sells hnd hsz o hmem
  rw [List.map_append, List.nodup_append] at hnd
  obtain ⟨hnb, hns, hdisj⟩ := hnd
  rcases List.mem_append.mp hmem with hb | hs
  · have hzero : fillS o.orderId (ME.findMatches buys sells) = 0 := by
      apply fillS_eq_zero
      intro m hm hc
      exact hdisj (List.mem_map_of_mem Order.orderId hb)
        (hc ▸ (ME.findMatches_memb buys sells hnb hns m hm).2)
    rw [hzero]
    have := ME.findMatches_buyFill buys sells hnb hns o hb
      (hsz o (List.mem_append_left _ hb))
    omega
  · have hzero : fillB o.orderId (ME.findMatches buys sells) = 0 := by
      apply fillB_eq_zero
      intro m hm hc
      exact hdisj (hc ▸ (ME.findMatches_memb buys sells hnb hns m hm).1)
        (List.mem_map_of_mem Order.orderId hs)
    rw [hzero]
    have := ME.findMatches_sellFill buys sells hnb hns o hs
      (hsz o (List.mem_append_right _ hs))
    omega

/-- Claim C4 counterexample: `ROFLSwapOracle.find_matches` matches the
single sell order 3 (size 5) against both crossing buys for quantity 5
each — the matches touching order 3 total 10, which exceeds its size. -/
theorem claim_C4_counterexample :
    (((OracleV5.findMatches oracleC4orders).filter
        (fun mm => mm.sellOrder.orderId == 3)).map OracleV5.OrMatch.quantity).sum
      = 10
    ∧ (∀ o ∈ oracleC4orders, o.orderId = 3 → o.size = 5)
    ∧ ¬((10 : Int) ≤ 5) := by decide

unseal List.merge List.mergeSort in
/-- Claim C4 witness: conservation at the spec example book — the buy
order 1 of size 10 is touched by matches totalling exactly 10, and each
sell stays within its size. -/
theorem claim_C4_witness :
    fillB 1 (ME.findMatches [bEx] [sEx1, sEx2])
      + fillS 1 (ME.findMatches [bEx] [sEx1, sEx2]) ≤ 10 :=
  claim_C4_conservation_amended [bEx] [sEx1, sEx2]
    (by decide) (by decide) bEx (by decide)

/-- Claim C5 (amended): `ROFLSwapOracle.retrieve_order` is total and
short-circuits to `None` on every failure — nonexistent order, filled
order, failed or empty encrypted-order fetch, failed or empty owner
fetch, decode failure — and returns an order only when every step
succeeded, with exactly the decoded fields.  The matching-service
`ROFLSwapMatcher.retrieve_order` (tee mode) likewise returns `None` on
owner-fetch, data-fetch and decode failures, but it consults neither
`orderExists` nor `filledOrders` (see the counterexample), and in
`local_test` mode it substitutes mock orders for `None`. -/
theorem claim_C5_retrieve_short_circuit_amended :
    (∀ (env : OracleV5.RetrEnv) (oid : Nat),
      (env.orderExists oid ≠ .ok true → OracleV5.retrieveOrder env oid = none)
      ∧ (env.filledOrders oid ≠ .ok false → OracleV5.retrieveOrder env oid = none)
      ∧ (env.getEncryptedOrder oid ≠ .ok true → OracleV5.retrieveOrder env oid = none)
      ∧ ((env.getOrderOwner oid = .error () ∨ env.getOrderOwner oid = .ok none) →
          OracleV5.retrieveOrder env oid = none)
      ∧ (env.decodeOrder oid = none → OracleV5.retrieveOrder env oid = none)
      ∧ (∀ o, OracleV5.retrieveOrder env oid = some o →
          env.orderExists oid = .ok true ∧ env.filledOrders oid = .ok false
          ∧ env.getEncryptedOrder oid = .ok true
          ∧ (∃ ow, env.getOrderOwner oid = .ok (some ow))
          ∧ ∃ tup, env.decodeOrder oid = some tup
            ∧ o = ⟨tup.1, tup.2.1, tup.2.2.1, tup.2.2.2.1,
                tup.2.2.2.2.1, tup.2.2.2.2.2⟩))
    ∧ (∀ (env : OM.OMRetrEnv) (oid : Nat), env.isLocalMode = false →
      ((env.getOrderOwner oid = .error () ∨ env.getOrderOwner oid = .ok none) →
        OM.retrieveOrder env oid = none)
      ∧ (∀ ow, env.getOrderOwner oid = .ok (some ow) → ow ≠ zeroAddr →
          env.getOrderData oid = .error () → OM.retrieveOrder env oid = none)
      ∧ (∀ ow, env.getOrderOwner oid = .ok (some ow) → ow ≠ zeroAddr →
          env.getOrderData oid = .ok (some (.hexData none)) →
          OM.retrieveOrder env oid = none)) := by
  constructor
  · intro env oid
    refine ⟨?_, ?_, ?_, ?_, ?_, ?_⟩
    · intro h
      unfold OracleV5.retrieveOrder
      cases he : env.orderExists oid with
      | error e => rfl
      | ok b =>
        cases b
        · rfl
        · exact absurd he h
    · intro h
      unfold OracleV5.retrieveOrder
      cases he : env.orderExists oid with
      | error e => rfl
      | ok b =>
        cases b
        · rfl
        · cases hf : env.filledOrders oid with
          | error e => rfl
          | ok c =>
            cases c
            · exact absurd hf h
            · rfl
    · intro h
      unfold OracleV5.retrieveOrder
      cases he : env.orderExists oid with
      | error e => rfl
      | ok b =>
        cases b
        · rfl
        · cases hf : env.filledOrders oid with
          | error e => rfl
          | ok c =>
            cases c
            · cases hg : env.getEncryptedOrder oid with
              | error e => rfl
              | ok d =>
                cases d
                · rfl
                · exact absurd hg h
            · rfl
    · intro h
      unfold OracleV5.retrieveOrder
      cases he : env.orderExists oid with
      | error e => rfl
      | ok b =>
        cases b
        · rfl
        · cases hf : env.filledOrders oid with
          | error e => rfl
          | ok c =>
            cases c
            · cases hg : env.getEncryptedOrder oid with
              | error e => rfl
              | ok d =>
                cases d
                · rfl
                · cases hw : env.getOrderOwner oid with
                  | error e => rfl
                  | ok w =>
                    cases w with
                    | none => rfl
                    | some ow =>
                      rcases h with h | h
                      · rw [hw] at h; exact absurd h (by simp)
                      · rw [hw] at h; exact absurd h (by simp)
            · rfl
    · intro h
      unfold OracleV5.retrieveOrder
      cases he : env.orderExists oid with
      | error e => rfl
      | ok b =>
        cases b
        · rfl
        · cases hf : env.filledOrders oid with
          | error e => rfl
          | ok c =>
            cases c
            · cases hg : env.getEncryptedOrder oid with
              | error e => rfl
              | ok d =>
                cases d
                · rfl
                · cases hw : env.getOrderOwner oid with
                  | error e => rfl
                  | ok w =>
                    cases w with
                    | none => rfl
                    | some ow => rw [h]
            · rfl
    · intro o h
      unfold OracleV5.retrieveOrder at h
      cases he : env.orderExists oid with
      | error e => rw [he] at h; exact absurd h (by simp)
      | ok b =>
        cases b
        · rw [he] at h; exact absurd h (by simp)
        · rw [he] at h
          cases hf : env.filledOrders oid with
          | error e => rw [hf] at h; exact absurd h (by simp)
          | ok c =>
            cases c
            · rw [hf] at h
              cases hg : env.getEncryptedOrder oid with
              | error e => rw [hg] at h; exact absurd h (by simp)
              | ok d =>
                cases d
                · rw [hg] at h; exact absurd h (by simp)
                · rw [hg] at h
                  cases hw : env.getOrderOwner oid with
                  | error e => rw [hw] at h; exact absurd h (by simp)
                  | ok w =>
                    cases w with
                    | none => rw [hw] at h; exact absurd h (by simp)
                    | some ow =>
                      rw [hw] at h
                      cases hd : env.decodeOrder oid with
                      | none => rw [hd] at h; exact absurd h (by simp)
                      | some tup =>
                        rw [hd] at h
                        obtain ⟨i, ow', tk, p, sz, ib⟩ := tup
                        refine ⟨rfl, rfl, rfl, ⟨ow, rfl⟩, (i, ow', tk, p, sz, ib),
                          rfl, ?_⟩
                        simpa using h.symm
            · rw [hf] at h; exact absurd h (by simp)
  · intro env oid hloc
    refine ⟨?_, ?_, ?_⟩
    · intro h
      unfold OM.retrieveOrder
      rcases h with h | h <;> rw [h] <;> simp [hloc]
    · intro ow how hz hd
      unfold OM.retrieveOrder
      rw [how]
      simp only [if_neg hz, hloc, Bool.false_eq_true, if_false]
      unfold OM.retrieveData
      rw [hd]
      simp [hloc]
    · intro ow how hz hd
      unfold OM.retrieveOrder
      rw [how]
      simp only [if_neg hz, hloc, Bool.false_eq_true, if_false]
      unfold OM.retrieveData
      rw [hd]
      simp [hloc]

/-- Claim C5 counterexample: the matching-service
`ROFLSwapMatcher.retrieve_order` returns a decoded order for order 1
even though `filledOrders(1)` is true — it never consults that flag, so
the claim that `retrieve` returns `None` whenever `filledOrders` is
true is false for this variant. -/
theorem claim_C5_counterexample :
    omRetrEnvEx.filledOrders 1 = true
    ∧ OM.retrieveOrder omRetrEnvEx 1 =
        some (.decoded ⟨1, "0xA", true, "0xT1", "0xT2", 5, 6⟩) := by decide

/-- Claim C5 witness: with order 1 marked filled,
`ROFLSwapOracle.retrieve_order` returns `None`. -/
theorem claim_C5_witness :
    OracleV5.retrieveOrder orRetrEnvEx 1 = none :=
  ((claim_C5_retrieve_short_circuit_amended.1 orRetrEnvEx 1).2.1) (by simp [orRetrEnvEx])

/-- Evaluation of `executeOne` when the conversions raise. -/
theorem executeOne_convert_some {env : Settle.SEnv} {m : Settle.SMatch} {msg : String}
    (hc : env.convert m = some msg) :
    Settle.executeOne env m =
      { success := false, txHash := none, error := some msg,
        receiptInfo := none, matched := m } := by
  simp only [Settle.executeOne, hc]

/-- Evaluation of `executeOne` without a signing key. -/
theorem executeOne_noKey {env : Settle.SEnv} {m : Settle.SMatch}
    (hc : env.convert m = none) (hk : env.hasKey = false) :
    Settle.executeOne env m =
      { success := false, txHash := none,
        error := some "No private key provided for transaction signing",
        receiptInfo := none, matched := m } := by
  simp only [Settle.executeOne, hc, hk, Bool.false_eq_true, if_false]

/-- Evaluation of `executeOne` when submission raises. -/
theorem executeOne_raises {env : Settle.SEnv} {m : Settle.SMatch} {msg : String}
    (hc : env.convert m = none) (hk : env.hasKey = true)
    (hs : env.submit m = .raises msg) :
    Settle.executeOne env m =
      { success := false, txHash := none, error := some msg,
        receiptInfo := none, matched := m } := by
  simp only [Settle.executeOne, hc, hk, if_true, hs]

/-- Evaluation of `executeOne` when a receipt is obtained. -/
theorem executeOne_receipt {env : Settle.SEnv} {m : Settle.SMatch} {h : String}
    {polls : Nat → Option Settle.SReceipt} {r : Settle.SReceipt}
    (hc : env.convert m = none) (hk : env.hasKey = true)
    (hs : env.submit m = .accepted h polls)
    (hr : Settle.firstReceipt polls = some r) :
    Settle.executeOne env m =
      { success := decide (r.status = 1), txHash := some h, error := none,
        receiptInfo := some r, matched := m } := by
  simp only [Settle.executeOne, hc, hk, if_true, hs, hr]

/-- Evaluation of `executeOne` when no receipt arrives in the polling
budget. -/
theorem executeOne_timeout {env : Settle.SEnv} {m : Settle.SMatch} {h : String}
    {polls : Nat → Option Settle.SReceipt}
    (hc : env.convert m = none) (hk : env.hasKey = true)
    (hs : env.submit m = .accepted h polls)
    (hr : Settle.firstReceipt polls = none) :
    Settle.executeOne env m =
      { success := false, txHash := some h,
        error := some "Transaction not confirmed after waiting",
        receiptInfo := none, matched := m } := by
  simp only [Settle.executeOne, hc, hk, if_true, hs, hr]

/-- Claim C6 (amended): `SettlementEngine.execute_matches` produces
exactly one result per match in input order; a result has
`success = true` exactly when a receipt with success status was obtained
within the 30-attempt polling budget; no receipt yields `success=false`
with the confirmation-timeout error description — but a receipt with
failure (reverted) status yields `success=false` with the receipt data
and NO error description (the result dict carries no `error` key; see
the counterexample). -/
theorem claim_C6_settlement_results_amended :
    (∀ (env : Settle.SEnv) (ms : List Settle.SMatch),
      Settle.executeMatches env ms = ms.map (Settle.executeOne env))
    ∧ (∀ (env : Settle.SEnv) (m : Settle.SMatch),
        (Settle.executeOne env m).matched = m)
    ∧ (∀ (env : Settle.SEnv) (m : Settle.SMatch),
        ((Settle.executeOne env m).success = true ↔
          ∃ h polls r, env.convert m = none ∧ env.hasKey = true
            ∧ env.submit m = .accepted h polls
            ∧ Settle.firstReceipt polls = some r ∧ r.status = 1))
    ∧ (∀ (env : Settle.SEnv) (m : Settle.SMatch) (h : String)
        (polls : Nat → Option Settle.SReceipt) (r : Settle.SReceipt),
        env.convert m = none → env.hasKey = true →
        env.submit m = .accepted h polls → Settle.firstReceipt polls = some r →
        r.status ≠ 1 →
        (Settle.executeOne env m).success = false
          ∧ (Settle.executeOne env m).receiptInfo = some r
          ∧ (Settle.executeOne env m).error = none)
    ∧ (∀ (env : Settle.SEnv) (m : Settle.SMatch) (h : String)
        (polls : Nat → Option Settle.SReceipt),
        env.convert m = none → env.hasKey = true →
        env.submit m = .accepted h polls → Settle.firstReceipt polls = none →
        (Settle.executeOne env m).success = false
          ∧ (Settle.executeOne env m).txHash = some h
          ∧ (Settle.executeOne env m).error =
              some "Transaction not confirmed after waiting") := by
  refine ⟨fun env ms => rfl, ?_, ?_, ?_, ?_⟩
  · intro env m
    cases hc : env.convert m with
    | some msg => rw [executeOne_convert_some hc]
    | none =>
      cases hk : env.hasKey
      · rw [executeOne_noKey hc hk]
      · cases hs : env.submit m with
        | raises msg => rw [executeOne_raises hc hk hs]
        | accepted h polls =>
          cases hr : Settle.firstReceipt polls with
          | some r => rw [executeOne_receipt hc hk hs hr]
          | none => rw [executeOne_timeout hc hk hs hr]
  · intro env m
    constructor
    · intro hsucc
      cases hc : env.convert m with
      | some msg => rw [executeOne_convert_some hc] at hsucc; simp at hsucc
      | none =>
        cases hk : env.hasKey
        · rw [executeOne_noKey hc hk] at hsucc; simp at hsucc
        · cases hs : env.submit m with
          | raises msg => rw [executeOne_raises hc hk hs] at hsucc; simp at hsucc
          | accepted h polls =>
            cases hr : Settle.firstReceipt polls with
            | none => rw [executeOne_timeout hc hk hs hr] at hsucc; simp at hsucc
            | some r =>
              rw [executeOne_receipt hc hk hs hr] at hsucc
              simp at hsucc
              exact ⟨h, polls, r, rfl, rfl, rfl, hr, hsucc⟩
    · rintro ⟨h, polls, r, hc, hk, hs, hr, hst⟩
      rw [executeOne_receipt hc hk hs hr]
      simp [hst]
  · intro env m h polls r hc hk hs hr hst
    rw [executeOne_receipt hc hk hs hr]
    simp [hst]
  · intro env m h polls hc hk hs hr
    rw [executeOne_timeout hc hk hs hr]
    simp

/-- Claim C6 counterexample: on a reverted transaction (receipt status
0), the result has `success = false` and carries the receipt, but its
`error` field is `none` — `settlement.py` attaches no error description
to a reverted settlement, contradicting the claim. -/
theorem claim_C6_counterexample :
    (Settle.executeOne settleRevertEnv settleMatchEx).success = false
    ∧ (Settle.executeOne settleRevertEnv settleMatchEx).receiptInfo =
        some ⟨0, 7, 21000⟩
    ∧ (Settle.executeOne settleRevertEnv settleMatchEx).error = none := by decide

/-- Claim C6 witness: the confirmation-timeout classification at a
concrete environment in which every poll comes back empty. -/
theorem claim_C6_witness :
    (Settle.executeOne settleTimeoutEnv settleMatchEx).success = false
    ∧ (Settle.executeOne settleTimeoutEnv settleMatchEx).txHash = some "0xh2"
    ∧ (Settle.executeOne settleTimeoutEnv settleMatchEx).error =
        some "Transaction not confirmed after waiting" :=
  claim_C6_settlement_results_amended.2.2.2.2 settleTimeoutEnv settleMatchEx
    "0xh2" (fun _ => none) rfl rfl rfl (by decide)

/-- Admission positivity for one `MatchingEngine.load_orders`
iteration. -/
theorem meLoadBody_pos {env : ME.LoadEnv} {oid : Nat} {o : Order}
    (h : ME.loadBody env oid = some o) : 0 < o.size ∧ 0 < o.price := by
  unfold ME.loadBody at h
  cases ha : env.accountsHead oid with
  | error e2 => rw [ha] at h; exact absurd h (by simp)
  | ok acc =>
    rw [ha] at h
    simp only [] at h
    split_ifs at h with h1 h2
    obtain rfl := Option.some_injective _ h
    exact ⟨lt_of_not_le h1, lt_of_not_le h2⟩

theorem meLoadOne_pos {env : ME.LoadEnv} {oid : Nat} {o : Order}
    (h : ME.loadOne env oid = some o) : 0 < o.size ∧ 0 < o.price := by
  unfold ME.loadOne at h
  cases hf : env.filledOrders oid with
  | error e =>
    rw [hf] at h
    exact meLoadBody_pos h
  | ok b =>
    cases b
    · rw [hf] at h
      exact meLoadBody_pos h
    · rw [hf] at h; exact absurd h (by simp)

/-- Admission positivity for one `MatchingEngineV5.load_orders`
iteration. -/
theorem v5LoadBody_pos {env : V5.V5LoadEnv} {oid : Nat} {o : Order}
    (h : V5.loadBody env oid = some o) : 0 < o.size ∧ 0 < o.price := by
  unfold V5.loadBody at h
  cases hg : env.getEncryptedOrder oid with
  | error e2 => rw [hg] at h; exact absurd h (by simp)
  | ok hd =>
    rw [hg] at h
    cases hw : env.getOrderOwner oid with
    | error e3 => rw [hw] at h; exact absurd h (by simp)
    | ok ow =>
      rw [hw] at h
      simp only [] at h
      split_ifs at h with h0 h1 h2
      obtain rfl := Option.some_injective _ h
      exact ⟨lt_of_not_le h1, lt_of_not_le h2⟩

theorem v5LoadOne_pos {env : V5.V5LoadEnv} {oid : Nat} {o : Order}
    (h : V5.loadOne env oid = some o) : 0 < o.size ∧ 0 < o.price := by
  unfold V5.loadOne at h
  cases hf : env.filledOrders oid with
  | error e =>
    rw [hf] at h
    exact v5LoadBody_pos h
  | ok b =>
    cases b
    · rw [hf] at h
      exact v5LoadBody_pos h
    · rw [hf] at h; exact absurd h (by simp)

/-- Claim C9: both `MatchingEngine.load_orders` and
`MatchingEngineV5.load_orders` admit only orders with strictly positive
size and strictly positive price into either side of the book, in every
environment. -/
theorem claim_C9_admission_positivity :
    (∀ (env : ME.LoadEnv) (o : Order),
      (o ∈ (ME.loadOrders env).1 ∨ o ∈ (ME.loadOrders env).2) →
      0 < o.size ∧ 0 < o.price)
    ∧ (∀ (env : V5.V5LoadEnv) (o : Order),
      (o ∈ (V5.loadOrders env).1 ∨ o ∈ (V5.loadOrders env).2) →
      0 < o.size ∧ 0 < o.price) := by
  constructor
  · intro env o hmem
    have hadm : o ∈ (List.range' 1 (match env.orderCounter with
        | .ok n => n | .error _ => 0)).filterMap (ME.loadOne env) := by
      rcases hmem with hm | hm
      · exact (List.mem_filter.mp hm).1
      · exact (List.mem_filter.mp hm).1
    obtain ⟨oid, _, hload⟩ := List.mem_filterMap.mp hadm
    exact meLoadOne_pos hload
  · intro env o hmem
    have hadm : o ∈ (List.range' 1 (match env.orderCount with
        | .ok n => n | .error _ => 0)).filterMap (V5.loadOne env) := by
      rcases hmem with hm | hm
      · exact (List.mem_filter.mp hm).1
      · exact (List.mem_filter.mp hm).1
    obtain ⟨oid, _, hload⟩ := List.mem_filterMap.mp hadm
    exact v5LoadOne_pos hload

/-- Claim C9 witness: the single order loaded in the example
environment has positive size and price. -/
theorem claim_C9_witness :
    0 < (⟨1, "0xAcc", zeroAddr, 100, 10, true⟩ : Order).size
    ∧ 0 < (⟨1, "0xAcc", zeroAddr, 100, 10, true⟩ : Order).price :=
  claim_C9_admission_positivity.1 meLoadEnvEx
    ⟨1, "0xAcc", zeroAddr, 100, 10, true⟩ (Or.inl (by decide))

end RoflSwap
